import Mathlib

/-!
# Structured concurrency scope (`parallel.go`)

A shallow embedding of the package `parallel`: the scope `P`, the driver `Do`,
the spawn operation `Go`, the capture shim `recover`, the finaliser `wait` and
the derived operation `Each`.

Goroutines are modelled by an interleaving semantics: a `State` holds the shared
scope, the control point of the goroutine that called `Do` (the driver) and the
control points of the goroutines started by `Go`; `step` runs one atomic action
of one goroutine, and `run` runs a schedule.  The functions handed to `Do` and `Go`
are described by what they do to the scope, statement by statement (`Work`): one
`Work` is one terminating execution of such a function.

An action holds at most one access to the shared words of the scope that another
goroutine could interfere with: `p.recover()` is one action (its access is the
`CompareAndSwap`), `Done` is one, and `Wait`, the store of `finished` and the load of
the slot in `p.wait()` are three.  `Go` is one action as well: between its test of
`finished` and its `Add(1)` the flag cannot change, since only `p.wait()` sets it,
after `Wait`, which does not return while the caller of `Go` (the body, or a
goroutine counted by the `WaitGroup`) is running.

A goroutine started by `Go` that ends while panicking ends the process, as in Go.
Its deferred `Done` has returned by then, and may have released `Wait`: the end of
the process is an action of its own, of the runtime, and until it happens the other
goroutines go on.
-/

namespace Parallel

/-! ## Go values and the standard-library primitives used by the package -/

/-- A non-nil Go interface value (`any`): its dynamic type and its data. -/
structure GoVal where
  typ : String
  data : String
  deriving DecidableEq, Repr

/-- A Go value of static type `any`; `none` is the nil interface. -/
abbrev GoAny := Option GoVal

/-- A Go `string` held in an interface. -/
def GoVal.str (s : String) : GoVal := ⟨"string", s⟩

/-- The cell of a `sync/atomic.Value`: nil until the first store. -/
structure Value where
  v : GoAny
  deriving DecidableEq, Repr

/-- The method `(*atomic.Value).Load`. -/
def Value.Load (x : Value) : GoAny := x.v

/-- The method `(*atomic.Value).CompareAndSwap(old, new)` of the Go standard library, as one
atomic action.  It panics when `new` is nil, when `old` is non-nil and of another
dynamic type than `new`, and when the cell already holds a value of another dynamic
type than `new`; otherwise it stores `new` if the cell holds `old`. -/
def Value.CompareAndSwap (x : Value) (old new : GoAny) : Except GoVal (Value × Bool) :=
  match new with
  | none => .error (.str "sync/atomic: compare and swap of nil value into Value")
  | some n =>
    if old.any (fun o => decide (o.typ ≠ n.typ)) then
      .error (.str "sync/atomic: compare and swap of inconsistently typed old value into Value")
    else
      match x.v with
      | none => if old.isSome then .ok (x, false) else .ok (⟨some n⟩, true)
      | some cur =>
        if cur.typ ≠ n.typ then
          .error (.str "sync/atomic: compare and swap of inconsistently typed value into Value")
        else if some cur ≠ old then .ok (x, false)
        else .ok (⟨some n⟩, true)

/-- The counter of a `sync.WaitGroup`. -/
structure WaitGroup where
  n : Int
  deriving DecidableEq, Repr

/-- The method `(*sync.WaitGroup).Add(delta)`: it panics when the counter would go
negative. -/
def WaitGroup.Add (wg : WaitGroup) (delta : Int) : Except GoVal WaitGroup :=
  if wg.n + delta < 0 then .error (.str "sync: negative WaitGroup counter")
  else .ok ⟨wg.n + delta⟩

/-- The method `(*sync.WaitGroup).Done()`, which is `Add(-1)`. -/
def WaitGroup.Done (wg : WaitGroup) : Except GoVal WaitGroup := wg.Add (-1)

/-! ## The scope -/

/-- The struct `P` (parallel.go, lines 15-24). -/
structure P where
  OnPanic : GoVal → Bool
  panicked : Value
  finished : Bool
  waitgroup : WaitGroup

/-- The method `(*P).recover` (lines 59-65), run as a deferred call.  `r` is what the builtin
`recover()` returns in that frame: nil when the frame exits normally, the panic
value otherwise (a panic value is never nil: `panic(nil)` raises a
`*runtime.PanicNilError`).  The builtin stops the panic of the frame; the result is
the scope afterwards and the panic, if any, raised by the deferred call itself. -/
def P.recover (p : P) (r : GoAny) : P × GoAny :=
  match r with
  | none => (p, none)
  | some v =>
    if p.OnPanic v then
      match p.panicked.CompareAndSwap none (some v) with
      | .ok (cell, _) => ({ p with panicked := cell }, none)
      | .error e => (p, some e)
    else (p, none)

/-- What a function handed to `Do` or to `Go` does, as far as the scope can tell:
it returns, panics, calls `p.Go`, assigns `p.OnPanic`, or performs a side effect
that its caller can observe (a write, an output). -/
inductive Work (α : Type) where
  | ret : Work α
  | fail (v : GoVal) : Work α
  | go (child : Work α) (rest : Work α) : Work α
  | setOnPanic (φ : GoVal → Bool) (rest : Work α) : Work α
  | effect (x : α) (rest : Work α) : Work α

/-- Control point of a goroutine started by `Go` (lines 51-56). -/
inductive Frame (α : Type) where
  /-- Inside `f()` (line 55), with the rest of `f` still to run. -/
  | run (w : Work α) : Frame α
  /-- The deferred `p.recover()` has run and left `pan` in flight; the deferred
  `p.waitgroup.Done()` (line 52) is next. -/
  | done (pan : GoAny) : Frame α
  /-- The goroutine has ended. -/
  | exited : Frame α

/-- A goroutine started by `Go`, with the function it was started with. -/
structure Task (α : Type) where
  origin : Work α
  frame : Frame α

/-- Control point of the goroutine that called `Do`. -/
inductive Driver (α : Type) where
  /-- Inside `f(p)` (line 42). -/
  | body (w : Work α) : Driver α
  /-- The deferred `p.recover()` has run and left `pan` in flight; `p.wait()` is at
  `p.waitgroup.Wait()` (line 68). -/
  | wait (pan : GoAny) : Driver α
  /-- The call of `Wait` has returned; `p.finished.Store(true)` (line 71) is next. -/
  | store (pan : GoAny) : Driver α
  /-- The flag is stored; `p.panicked.Load()` (line 72) is next. -/
  | load (pan : GoAny) : Driver α
  /-- The call of `Do` has left its frame: it returned (`none`) or it panicked with a
  value. -/
  | exit (out : GoAny) : Driver α

/-- The name of what moves in a `State`: the goroutine that called `Do`, the `i`-th
goroutine started by `Go`, or the runtime when it ends the process. -/
inductive Tid where
  | driver : Tid
  | task (i : Nat) : Tid
  | runtime : Tid
  deriving DecidableEq, Repr

/-- History of one call of `p.recover()` that found a panic: the goroutine, the panic
value, and the answer of `p.OnPanic` to it. -/
structure Capture where
  who : Tid
  val : GoVal
  kept : Bool
  deriving DecidableEq, Repr

/-- One call of `Do` in progress.  `fatal` holds the panic with which a goroutine
started by `Go` has ended (the first one, if several did): the runtime is about to
end the process with it.  `crashed` holds the panic with which the runtime has ended
the process.  `captured` and `effects` are history: the panics seen by
`p.recover()`, in the order of the calls, and the side effects performed so far. -/
structure State (α : Type) where
  p : P
  driver : Driver α
  tasks : List (Task α)
  fatal : GoAny
  crashed : GoAny
  captured : List Capture
  effects : List α


variable {α : Type}

/-- The method `(*P).Go` (lines 46-57): the check of `finished` and its panic, then
`waitgroup.Add(1)`, then the `go` statement.  The new goroutine is put after the ones
started before; it starts in `f()` with both calls deferred. -/
def State.Go (s : State α) (f : Work α) : Except GoVal (State α) :=
  if s.p.finished then
    .error (.str "parallel: cannot call Go after Do has returned")
  else
    match s.p.waitgroup.Add 1 with
    | .error e => .error e
    | .ok wg =>
      .ok { s with p := { s.p with waitgroup := wg }, tasks := s.tasks ++ [⟨f, .run f⟩] }

/-- The deferred `p.recover()` of a frame of goroutine `who`, with its history. -/
def State.recover (s : State α) (who : Tid) (r : GoAny) : State α × GoAny :=
  ({ s with p := (s.p.recover r).1,
             captured := s.captured ++ (r.map fun v => ⟨who, v, s.p.OnPanic v⟩).toList },
   (s.p.recover r).2)

/-- How the function of a frame goes on after one statement. -/
inductive Ctl (α : Type) where
  /-- Still running, with the statements left. -/
  | cont (w : Work α) : Ctl α
  /-- Left: normally (`none`) or panicking with a value. -/
  | left (r : GoAny) : Ctl α

/-- One statement of a function handed to `Do` or `Go`. -/
def Work.exec (w : Work α) (s : State α) : State α × Ctl α :=
  match w with
  | .ret => (s, .left none)
  | .fail v => (s, .left (some v))
  | .go child rest =>
    match s.Go child with
    | .ok s1 => (s1, .cont rest)
    | .error e => (s, .left (some e))
  | .setOnPanic φ rest => ({ s with p := { s.p with OnPanic := φ } }, .cont rest)
  | .effect x rest => ({ s with effects := s.effects ++ [x] }, .cont rest)

/-- The function `Do` (lines 38-43) at the point where the scope is made, both calls are deferred
and `f(p)` is about to run. -/
def Do (f : Work α) : State α :=
  { p := { OnPanic := fun _ => true, panicked := ⟨none⟩, finished := false, waitgroup := ⟨0⟩ }
    driver := .body f
    tasks := []
    fatal := none
    crashed := none
    captured := []
    effects := [] }

/-- The method `(*P).wait` (lines 67-75), run as the last deferred call of `Do`, action by
action: `Wait` returns when the counter is 0; `finished` is stored; the slot is
loaded, and a value in it is raised (in place of a panic in flight in the frame, if
any), otherwise `Do` leaves with the panic in flight, if any.  `none`: the driver is
not in `wait`, or is blocked in `Wait`, or `Do` is over. -/
def State.wait (s : State α) : Option (State α) :=
  match s.driver with
  | .wait pan => if s.p.waitgroup.n = 0 then some { s with driver := .store pan } else none
  | .store pan => some { s with p := { s.p with finished := true }, driver := .load pan }
  | .load pan =>
    match s.p.panicked.Load with
    | some v => some { s with driver := .exit (some v) }
    | none => some { s with driver := .exit pan }
  | _ => none

/-- One action of the goroutine that called `Do` (lines 38-43): a statement of `f(p)`,
followed on its exit by the deferred `p.recover()` (line 41); then the deferred
`p.wait()` (line 40). -/
def stepDriver (s : State α) : Option (State α) :=
  match s.driver with
  | .body w =>
    match w.exec s with
    | (s1, .cont w1) => some { s1 with driver := .body w1 }
    | (s1, .left r) =>
      some { (s1.recover .driver r).1 with driver := .wait (s1.recover .driver r).2 }
  | _ => s.wait

/-- One action of goroutine `i` started by `Go` (lines 51-56): a statement of `f()`,
followed on its exit by the deferred `p.recover()`; then the deferred
`p.waitgroup.Done()`, after which the goroutine ends.  A panic still in flight then
leaves the goroutine: it is handed to the runtime (`fatal`), which ends the process
in a later action. -/
def stepTask (s : State α) (i : Nat) : Option (State α) :=
  match s.tasks[i]? with
  | none => none
  | some t =>
    match t.frame with
    | .run w =>
      match w.exec s with
      | (s1, .cont w1) => some { s1 with tasks := s1.tasks.set i { t with frame := .run w1 } }
      | (s1, .left r) =>
        some { (s1.recover (.task i) r).1 with
               tasks := (s1.recover (.task i) r).1.tasks.set i
                 { t with frame := .done (s1.recover (.task i) r).2 } }
    | .done pan =>
      match s.p.waitgroup.Done with
      | .ok wg =>
        some { s with p := { s.p with waitgroup := wg }
                      tasks := s.tasks.set i { t with frame := .exited }
                      fatal := s.fatal <|> pan }
      | .error e =>
        some { s with tasks := s.tasks.set i { t with frame := .exited }
                      fatal := s.fatal <|> some e }
    | .exited => none

/-- The runtime ends the process with the panic that left a goroutine. `none`: no
panic has left a goroutine. -/
def stepRuntime (s : State α) : Option (State α) :=
  match s.fatal with
  | some e => some { s with crashed := some e }
  | none => none

/-- One action of `t`; nothing moves once the process has ended. -/
def step (s : State α) (t : Tid) : Option (State α) :=
  if s.crashed.isSome then none
  else
    match t with
    | .driver => stepDriver s
    | .task i => stepTask s i
    | .runtime => stepRuntime s

/-- The outcome of `Do` once it has left its frame. -/
def State.outcome (s : State α) : Option GoAny :=
  match s.driver with
  | .exit out => some out
  | _ => none

/-- The frame of a goroutine started by `Go` has ended. -/
def Frame.isExited : Frame α → Bool
  | .exited => true
  | _ => false

/-- The function `func() { f(v2) }` of line 82: the call of `f` on the element, then
what `f` does with it: it returns (`none`) or panics with a value. -/
def Each.call {T : Type} (f : T → GoAny) (v : T) : Work T :=
  .effect v (match f v with
    | none => .ret
    | some e => .fail e)

/-- The function handed to `Do` by `Each` (lines 79-84): the loop over the slice. -/
def Each.loop {T : Type} (f : T → GoAny) : List T → Work T
  | [] => .ret
  | v :: vs => .go (Each.call f v) (Each.loop f vs)

/-- The function `Each` (lines 78-85). -/
def Each {T : Type} (items : List T) (f : T → GoAny) : State T :=
  Do (Each.loop f items)

/-! ## Runs, invariants and accounting: definitions -/

/-- Runs the goroutines in the order of `sched`; a goroutine that cannot move when
its turn comes is skipped. -/
def run (s : State α) (sched : List Tid) : State α :=
  sched.foldl (fun st t => (step st t).getD st) s

/-- Number of goroutines started by `Go` that have not ended. -/
def live (ts : List (Task α)) : Nat :=
  (ts.map (fun t => if t.frame.isExited then 0 else 1)).sum

/-- The call of `Wait` in `p.wait()` has returned. -/
def Driver.pastWait : Driver α → Bool
  | .store _ | .load _ | .exit _ => true
  | _ => false

/-- The flag `finished` has been stored in `p.wait()`. -/
def Driver.pastSeal : Driver α → Bool
  | .load _ | .exit _ => true
  | _ => false

/-- The counter is the number of goroutines that have not ended; once `Wait` has
returned there is none; `finished` is set exactly from the store of `p.wait()` on. -/
structure Inv (s : State α) : Prop where
  count : s.p.waitgroup.n = (live s.tasks : Int)
  drained : s.driver.pastWait = true → live s.tasks = 0
  flag : s.p.finished = s.driver.pastSeal

/-- The scope and goroutine list after an accepted `Go`. -/
def State.spawned (s : State α) (f : Work α) : State α :=
  { s with p := { s.p with waitgroup := ⟨s.p.waitgroup.n + 1⟩ },
           tasks := s.tasks ++ [⟨f, .run f⟩] }

/-- The cases of `Work.exec`. -/
inductive Exec : Work α → State α → State α → Ctl α → Prop where
  | ret (s : State α) : Exec .ret s s (.left none)
  | fail (s : State α) (v : GoVal) : Exec (.fail v) s s (.left (some v))
  | goSealed (s : State α) (c r : Work α) (hf : s.p.finished = true) :
      Exec (.go c r) s s (.left (some (.str "parallel: cannot call Go after Do has returned")))
  | goNeg (s : State α) (c r : Work α) (hf : s.p.finished = false)
      (hn : s.p.waitgroup.n + 1 < 0) :
      Exec (.go c r) s s (.left (some (.str "sync: negative WaitGroup counter")))
  | goOk (s : State α) (c r : Work α) (hf : s.p.finished = false)
      (hn : 0 ≤ s.p.waitgroup.n + 1) :
      Exec (.go c r) s (s.spawned c) (.cont r)
  | setOnPanic (s : State α) (φ : GoVal → Bool) (r : Work α) :
      Exec (.setOnPanic φ r) s { s with p := { s.p with OnPanic := φ } } (.cont r)
  | effect (s : State α) (x : α) (r : Work α) :
      Exec (.effect x r) s { s with effects := s.effects ++ [x] } (.cont r)

/-- The cases of `step`. -/
inductive Step : State α → Tid → State α → Prop where
  | driverCont (s s1 : State α) (w w1 : Work α) (hc : s.crashed = none)
      (hd : s.driver = .body w) (he : Exec w s s1 (.cont w1)) :
      Step s .driver { s1 with driver := .body w1 }
  | driverLeft (s s1 : State α) (w : Work α) (r : GoAny) (hc : s.crashed = none)
      (hd : s.driver = .body w) (he : Exec w s s1 (.left r)) :
      Step s .driver { (s1.recover .driver r).1 with driver := .wait (s1.recover .driver r).2 }
  | driverWait (s : State α) (pan : GoAny) (hc : s.crashed = none)
      (hd : s.driver = .wait pan) (hn : s.p.waitgroup.n = 0) :
      Step s .driver { s with driver := .store pan }
  | driverSeal (s : State α) (pan : GoAny) (hc : s.crashed = none)
      (hd : s.driver = .store pan) :
      Step s .driver { s with p := { s.p with finished := true }, driver := .load pan }
  | driverLoad (s : State α) (pan : GoAny) (hc : s.crashed = none)
      (hd : s.driver = .load pan) :
      Step s .driver { s with driver := .exit (s.p.panicked.v <|> pan) }
  | taskCont (s s1 : State α) (i : Nat) (t : Task α) (w w1 : Work α) (hc : s.crashed = none)
      (ht : s.tasks[i]? = some t) (hfr : t.frame = .run w) (he : Exec w s s1 (.cont w1)) :
      Step s (.task i) { s1 with tasks := s1.tasks.set i { t with frame := .run w1 } }
  | taskLeft (s s1 : State α) (i : Nat) (t : Task α) (w : Work α) (r : GoAny)
      (hc : s.crashed = none)
      (ht : s.tasks[i]? = some t) (hfr : t.frame = .run w) (he : Exec w s s1 (.left r)) :
      Step s (.task i)
        { (s1.recover (.task i) r).1 with
          tasks := (s1.recover (.task i) r).1.tasks.set i
            { t with frame := .done (s1.recover (.task i) r).2 } }
  | taskDone (s : State α) (i : Nat) (t : Task α) (pan : GoAny) (hc : s.crashed = none)
      (ht : s.tasks[i]? = some t) (hfr : t.frame = .done pan) (hn : 0 ≤ s.p.waitgroup.n - 1) :
      Step s (.task i)
        { s with p := { s.p with waitgroup := ⟨s.p.waitgroup.n - 1⟩ }
                 tasks := s.tasks.set i { t with frame := .exited }
                 fatal := s.fatal <|> pan }
  | taskDoneNeg (s : State α) (i : Nat) (t : Task α) (pan : GoAny) (hc : s.crashed = none)
      (ht : s.tasks[i]? = some t) (hfr : t.frame = .done pan) (hn : s.p.waitgroup.n - 1 < 0) :
      Step s (.task i)
        { s with tasks := s.tasks.set i { t with frame := .exited }
                 fatal := s.fatal <|> some (.str "sync: negative WaitGroup counter") }
  | runtimeDie (s : State α) (e : GoVal) (hc : s.crashed = none) (hf : s.fatal = some e) :
      Step s .runtime { s with crashed := some e }

/-- The first captured value that `p.OnPanic` answered `true` to. -/
def firstKept (l : List Capture) : GoAny := (l.find? (·.kept)).map (·.val)

/-- The panic left in flight in the frame of `Do` by its deferred `p.recover()`. -/
def Driver.pan : Driver α → GoAny
  | .wait pan | .store pan | .load pan => pan
  | _ => none

/-- The slot holds the first kept failure; a panic in flight in the frame of `Do`
comes with a full slot; the outcome of `Do` is the content of the slot. -/
structure SlotInv (s : State α) : Prop where
  first : s.p.panicked.v = firstKept s.captured
  pan : s.driver.pan.isSome = true → s.p.panicked.v.isSome = true
  out : ∀ out, s.driver = .exit out → out = s.p.panicked.v

/-- Number of actions a function can still cause: its own statements and exit, and
the goroutines it starts. -/
def Work.cost : Work α → Nat
  | .ret => 1
  | .fail _ => 1
  | .go child rest => child.cost + rest.cost + 3
  | .setOnPanic _ rest => rest.cost + 1
  | .effect _ rest => rest.cost + 1

/-- Actions left to a goroutine started by `Go`. -/
def Frame.fuel : Frame α → Nat
  | .run w => w.cost + 2
  | .done _ => 2
  | .exited => 0

/-- Actions left to the goroutine that called `Do`, its own statements apart from
the goroutines they start. -/
def Driver.fuel : Driver α → Nat
  | .body w => w.cost + 3
  | .wait _ => 3
  | .store _ => 2
  | .load _ => 1
  | .exit _ => 0

/-- The action left to the runtime: the end of the process, when a panic has left a
goroutine. -/
def State.pending (s : State α) : Nat :=
  if s.crashed.isSome then 0 else if s.fatal.isSome then 1 else 0

/-- A bound on the number of actions left in a state. -/
def State.fuel (s : State α) : Nat :=
  s.driver.fuel + (s.tasks.map (fun t => t.frame.fuel)).sum + s.pending

/-- Cost of what is left of a function after a statement. -/
def Ctl.cost : Ctl α → Nat
  | .cont w => w.cost
  | .left _ => 0

/-- The side effects of a function and of the goroutines it starts. -/
def Work.pend : Work α → List α
  | .ret => []
  | .fail _ => []
  | .go child rest => child.pend ++ rest.pend
  | .setOnPanic _ rest => rest.pend
  | .effect x rest => x :: rest.pend

/-- Side effects still to come from a goroutine started by `Go`. -/
def Frame.pend : Frame α → List α
  | .run w => w.pend
  | _ => []

/-- Side effects still to come from the function handed to `Do`. -/
def Driver.pend : Driver α → List α
  | .body w => w.pend
  | _ => []

/-- Side effects still to come from a function after a statement. -/
def Ctl.pend : Ctl α → List α
  | .cont w => w.pend
  | .left _ => []

/-- Sum of the weights of the elements of a list. -/
def wsum (g : α → Nat) (l : List α) : Nat := (l.map g).sum

/-- Effects done and effects still to come, weighted. -/
def State.weight (g : α → Nat) (s : State α) : Nat :=
  wsum g s.effects + wsum g s.driver.pend + (s.tasks.map (fun t => wsum g t.frame.pend)).sum

/-- No `panic` in the function nor in the goroutines it starts. -/
def Work.quiet : Work α → Bool
  | .ret => true
  | .fail _ => false
  | .go child rest => child.quiet && rest.quiet
  | .setOnPanic _ rest => rest.quiet
  | .effect _ rest => rest.quiet

/-- The goroutine will not panic and has no panic in flight. -/
def Frame.quiet : Frame α → Prop
  | .run w => w.quiet = true
  | .done pan => pan = none
  | .exited => True

/-- The frame of `Do` will not panic and has no panic in flight. -/
def Driver.quiet : Driver α → Prop
  | .body w => w.quiet = true
  | .wait pan | .store pan | .load pan => pan = none
  | .exit out => out = none

/-- The function goes on without a panic to come, or has returned normally. -/
def Ctl.quiet : Ctl α → Prop
  | .cont w => w.quiet = true
  | .left r => r = none

/-- Nothing has panicked and nothing will. -/
structure QuietInv (s : State α) : Prop where
  slot : s.p.panicked.v = none
  crashed : s.crashed = none
  fatal : s.fatal = none
  driver : s.driver.quiet
  tasks : ∀ t ∈ s.tasks, t.frame.quiet

/-- The functions handed to `Go` by a function itself, in the order of the calls. -/
def Work.spawns : Work α → List (Work α)
  | .ret => []
  | .fail _ => []
  | .go child rest => child :: rest.spawns
  | .setOnPanic _ rest => rest.spawns
  | .effect _ rest => rest.spawns

/-- Calls of `Go` still to come from a goroutine started by `Go`. -/
def Frame.spawns : Frame α → List (Work α)
  | .run w => w.spawns
  | _ => []

/-- Calls of `Go` still to come from the function handed to `Do`. -/
def Driver.spawns : Driver α → List (Work α)
  | .body w => w.spawns
  | _ => []

/-- Calls of `Go` still to come from a function after a statement. -/
def Ctl.spawns : Ctl α → List (Work α)
  | .cont w => w.spawns
  | .left _ => []

/-- The goroutines started so far and the calls of `Go` still to come from the
function handed to `Do` are, in this order, the calls of `Go` of that function, when
the functions handed to `Go` do not call `Go` themselves. -/
structure FlatInv (f : Work α) (s : State α) : Prop where
  order : s.tasks.map (fun t => t.origin) ++ s.driver.spawns = f.spawns
  leaf : ∀ t ∈ s.tasks, t.frame.spawns = []

/-- The panics of a function and of the goroutines it starts. -/
def Work.fails : Work α → List GoVal
  | .ret => []
  | .fail v => [v]
  | .go child rest => child.fails ++ rest.fails
  | .setOnPanic _ rest => rest.fails
  | .effect _ rest => rest.fails

/-- The panics of the goroutines a function starts. -/
def Work.taskFails : Work α → List GoVal
  | .ret => []
  | .fail _ => []
  | .go child rest => child.fails ++ rest.taskFails
  | .setOnPanic _ rest => rest.taskFails
  | .effect _ rest => rest.taskFails

/-- Panics still to come from a goroutine started by `Go` and from those it starts. -/
def Frame.fails : Frame α → List GoVal
  | .run w => w.fails
  | _ => []

/-- Panics still to come from the function handed to `Do` and from the goroutines it
starts. -/
def Driver.fails : Driver α → List GoVal
  | .body w => w.fails
  | _ => []

/-- Panics still to come from the goroutines the function handed to `Do` starts. -/
def Driver.taskFails : Driver α → List GoVal
  | .body w => w.taskFails
  | _ => []

/-- Panics of a function after a statement: those still to come, or the one it is
leaving with. -/
def Ctl.fails : Ctl α → List GoVal
  | .cont w => w.fails
  | .left r => r.toList

/-- Panics still to come from the goroutines a function starts after a statement. -/
def Ctl.taskFails : Ctl α → List GoVal
  | .cont w => w.taskFails
  | .left _ => []

/-- The values captured in goroutines started by `Go`. -/
def byTasks (l : List Capture) : List GoVal :=
  (l.filter (fun c => decide (c.who ≠ .driver))).map (·.val)

/-- Panics captured and panics still to come, weighted. -/
def State.failWeight (g : GoVal → Nat) (s : State α) : Nat :=
  wsum g (s.captured.map (·.val)) + wsum g s.driver.fails
    + (s.tasks.map (fun t => wsum g t.frame.fails)).sum

/-- Panics of goroutines started by `Go`, captured and still to come, weighted. -/
def State.taskFailWeight (g : GoVal → Nat) (s : State α) : Nat :=
  wsum g (byTasks s.captured) + wsum g s.driver.taskFails
    + (s.tasks.map (fun t => wsum g t.frame.fails)).sum

/-- No assignment to `p.OnPanic` in the function nor in the goroutines it starts. -/
def Work.noSet : Work α → Bool
  | .ret => true
  | .fail _ => true
  | .go child rest => child.noSet && rest.noSet
  | .setOnPanic _ _ => false
  | .effect _ rest => rest.noSet

/-- The goroutine does not assign to `p.OnPanic` from now on. -/
def Frame.noSet : Frame α → Prop
  | .run w => w.noSet = true
  | _ => True

/-- The function handed to `Do` does not assign to `p.OnPanic` from now on. -/
def Driver.noSet : Driver α → Prop
  | .body w => w.noSet = true
  | _ => True

/-- The function does not assign to `p.OnPanic` after the statement. -/
def Ctl.noSet : Ctl α → Prop
  | .cont w => w.noSet = true
  | .left _ => True

/-- The function handed to `Do` runs under the filter `φ`: it keeps the filter `Do`
installs, or it assigns `φ` to `p.OnPanic` as its first statement, before any call
of `Go`, and nothing assigns to it after that. -/
def Work.filtered (φ : GoVal → Bool) (f : Work α) : Prop :=
  (f.noSet = true ∧ φ = fun _ => true) ∨ ∃ rest, f = .setOnPanic φ rest ∧ rest.noSet = true

/-- The filter is `φ` from now on (or the body is about to assign it, with nothing
started nor captured yet), and it was `φ` at every capture so far. -/
structure FilterInv (φ : GoVal → Bool) (s : State α) : Prop where
  now : (s.p.OnPanic = φ ∧ s.driver.noSet) ∨
    ∃ rest, s.driver = .body (.setOnPanic φ rest) ∧ rest.noSet = true ∧ s.tasks = [] ∧
      s.captured = []
  tasks : ∀ t ∈ s.tasks, t.frame.noSet
  hist : ∀ c ∈ s.captured, c.kept = φ c.val

/-- The process has ended, or a panic has left a goroutine started by `Go`, or one is
in flight in such a goroutine after its `p.recover()`. -/
def Doomed (s : State α) : Prop :=
  s.crashed.isSome = true ∨ s.fatal.isSome = true ∨
    ∃ (j : Nat) (t : Task α) (e : GoVal), s.tasks[j]? = some t ∧ t.frame = .done (some e)

/-- A kept capture made in a goroutine started by `Go` has the dynamic type of the
slot, or the process is doomed. -/
structure DoomInv (s : State α) : Prop where
  typed : ∀ c ∈ s.captured, c.who ≠ .driver → c.kept = true →
    (∃ x, s.p.panicked.v = some x ∧ x.typ = c.val.typ) ∨ Doomed s

/-- A state in which no goroutine can move. -/
def Stuck (s : State α) : Prop := ∀ t, step s t = none

/-- The panic in flight in the frame of a goroutine started by `Go`, after its
deferred `p.recover()`. -/
def Frame.pan : Frame α → GoAny
  | .done pan => pan
  | _ => none

/-- The failures the filter keeps agree in dynamic type: each one raised in a
goroutine started by `Go` has the dynamic type of every other one. -/
def Work.consistent (φ : GoVal → Bool) (f : Work α) : Prop :=
  ∀ a ∈ f.fails, ∀ b ∈ f.taskFails, φ a = true → φ b = true → a.typ = b.typ

/-- No goroutine started by `Go` has a panic in flight after its `p.recover()`, none
has left a goroutine, and the process has not ended. -/
structure CalmInv (s : State α) : Prop where
  crashed : s.crashed = none
  fatal : s.fatal = none
  tasks : ∀ t ∈ s.tasks, t.frame.pan = none

/-- The value `"hi"`. -/
def hi : GoVal := .str "hi"

/-- The value `"oops"`. -/
def oops : GoVal := .str "oops"

/-- The value `42` of type `int`. -/
def int42 : GoVal := ⟨"int", "42"⟩

/-- The panic raised by `CompareAndSwap` on a value of another dynamic type than the
stored one. -/
def casPanic : GoVal :=
  .str "sync/atomic: compare and swap of inconsistently typed value into Value"

/-- The function handed to `Do` in `Test_Parallel_Panic`; effect `0` is `a = true`. -/
def panicBody : Work Nat := .go (.effect 0 .ret) (.go (.fail hi) (.fail oops))

/-- A schedule of `Test_Parallel_Panic`: the body runs to its panic, then the second
goroutine, then the first, then `wait`. -/
def panicSched : List Tid :=
  [.driver, .driver, .driver, .task 1, .task 1, .task 0, .task 0, .task 0,
   .driver, .driver, .driver]

/-- A body that starts a goroutine panicking with a `string` and then panics with an
`int`. -/
def lateBody : Work Nat := .go (.fail hi) (.fail int42)

/-- The goroutine runs to its end before the body panics. -/
def lateSched : List Tid :=
  [.driver, .task 0, .task 0, .driver, .driver, .driver, .driver]

/-- The function handed to `Do` in `Test_Parallel_Misuse`. -/
def misuseBody : Work Nat := .ret

/-- The call of `Do` of `Test_Parallel_Misuse`, run to its return. -/
def misuseSched : List Tid := [.driver, .driver, .driver, .driver]

/-- Two goroutines that panic with a `string` and with an `int`. -/
def mixedBody : Work Nat := .go (.fail hi) (.go (.fail int42) .ret)

/-- The body, then the panic of the first goroutine, then the second goroutine to
its end, then the runtime: the process ends while `Do` is in `Wait`. -/
def mixedSched : List Tid :=
  [.driver, .driver, .driver, .task 0, .task 1, .task 1, .runtime]

/-- The body, then both goroutines to their end, then `wait` to the panic of `Do`,
then the runtime: the process ends after `Do` has left its frame. -/
def mixedLateSched : List Tid :=
  [.driver, .driver, .driver, .task 0, .task 0, .task 1, .task 1,
   .driver, .driver, .driver, .runtime]

/-- A callback of `Each` that panics with a `string` on `1` and with an `int`
otherwise. -/
def mixedCallback (n : Nat) : GoAny := if n = 1 then some hi else some int42

/-- The loop of `Each`, then the goroutine of the first element up to its panic,
then that of the second to its end, then the runtime: the process ends while `Each`
is in `Wait`. -/
def eachSched : List Tid :=
  [.driver, .driver, .driver, .task 0, .task 0, .task 1, .task 1, .task 1, .runtime]

/-- The loop of `Each`, then both goroutines to their end, then `wait` to the panic
of `Each`, then the runtime: the process ends after `Each` has left its frame. -/
def eachLateSched : List Tid :=
  [.driver, .driver, .driver, .task 0, .task 0, .task 0, .task 1, .task 1, .task 1,
   .driver, .driver, .driver, .runtime]

/-- A sequence of calls of `p.recover()` on one scope, each finding a panic. -/
def recoverAll (p : P) (rs : List GoVal) : P :=
  rs.foldl (fun q r => (q.recover (some r)).1) p

/-- A scope whose slot holds `"hi"`, with one goroutine outstanding. -/
def heldScope : P :=
  { OnPanic := fun _ => true, panicked := ⟨some hi⟩, finished := false, waitgroup := ⟨1⟩ }

/-- The schedule of `ExampleEach` in which the goroutines run in the order 3, 1, 2. -/
def exampleSched : List Tid :=
  [.driver, .driver, .driver, .driver, .task 2, .task 2, .task 2, .task 0, .task 0, .task 0,
   .task 1, .task 1, .task 1, .driver, .driver, .driver]

/-! ## Lemmas -/

theorem sum_map_set {M : Type} [AddCommMonoid M] (g : Task α → M) :
    ∀ (ts : List (Task α)) (i : Nat) (t t1 : Task α), ts[i]? = some t →
      ((ts.set i t1).map g).sum + g t = (ts.map g).sum + g t1
  | [], i, t, t1, h => by simp at h
  | a :: ts, 0, t, t1, h => by
    simp at h; subst h; simp [add_comm, add_left_comm]
  | a :: ts, i + 1, t, t1, h => by
    simp at h
    have := sum_map_set g ts i t t1 h
    simp only [List.set_cons_succ, List.map_cons, List.sum_cons, add_assoc, this]

theorem live_set (ts : List (Task α)) (i : Nat) (t t1 : Task α) (h : ts[i]? = some t) :
    live (ts.set i t1) + (if t.frame.isExited then 0 else 1)
      = live ts + (if t1.frame.isExited then 0 else 1) :=
  sum_map_set _ ts i t t1 h

theorem live_append (ts us : List (Task α)) : live (ts ++ us) = live ts + live us := by
  simp [live]

theorem exec_spec (w : Work α) (s : State α) : Exec w s (w.exec s).1 (w.exec s).2 := by
  cases w with
  | ret => exact .ret s
  | fail v => exact .fail s v
  | go c r =>
    by_cases hf : s.p.finished = true
    · simp only [Work.exec, State.Go, hf, if_true]
      exact .goSealed s c r hf
    · have hf2 : s.p.finished = false := by simpa using hf
      by_cases hn : s.p.waitgroup.n + 1 < 0
      · simp only [Work.exec, State.Go, WaitGroup.Add, hf2, hn, if_true]
        exact .goNeg s c r hf2 hn
      · have he : (Work.go c r).exec s = (s.spawned c, .cont r) := by
          simp [Work.exec, State.Go, WaitGroup.Add, hf2, hn, State.spawned]
        rw [he]
        exact .goOk s c r hf2 (by omega)
  | setOnPanic φ r => exact .setOnPanic s φ r
  | effect x r => exact .effect s x r

theorem exec_eq (w : Work α) (s s1 : State α) (c : Ctl α) (h : w.exec s = (s1, c)) :
    Exec w s s1 c := by
  have := exec_spec w s
  rw [h] at this
  exact this

theorem step_spec (s s1 : State α) (t : Tid) (h : step s t = some s1) : Step s t s1 := by
  unfold step at h
  split at h
  · simp at h
  rename_i hcr
  have hc : s.crashed = none := by simpa using hcr
  cases t with
  | driver =>
    simp only [stepDriver] at h
    split at h
    · rename_i w hw
      split at h
      · rename_i s2 w1 he
        simp only [Option.some.injEq] at h; subst h
        exact .driverCont s s2 w w1 hc hw (exec_eq _ _ _ _ he)
      · rename_i s2 r he
        simp only [Option.some.injEq] at h; subst h
        exact .driverLeft s s2 w r hc hw (exec_eq _ _ _ _ he)
    · simp only [State.wait] at h
      split at h
      · rename_i pan hw
        split at h
        · rename_i hn
          simp only [Option.some.injEq] at h; subst h
          exact .driverWait s pan hc hw hn
        · simp at h
      · rename_i pan hw
        simp only [Option.some.injEq] at h; subst h
        exact .driverSeal s pan hc hw
      · rename_i pan hw
        have := Step.driverLoad s pan hc hw
        split at h
        · rename_i v hv
          simp only [Option.some.injEq] at h; subst h
          simp only [Value.Load] at hv
          simpa [hv] using this
        · rename_i hv
          simp only [Option.some.injEq] at h; subst h
          simp only [Value.Load] at hv
          simpa [hv] using this
      · simp at h
  | task i =>
    simp only [stepTask] at h
    split at h
    · simp at h
    rename_i t ht
    split at h
    · rename_i w hw
      split at h
      · rename_i s2 w1 he
        simp only [Option.some.injEq] at h; subst h
        exact .taskCont s s2 i t w w1 hc ht hw (exec_eq _ _ _ _ he)
      · rename_i s2 r he
        simp only [Option.some.injEq] at h; subst h
        exact .taskLeft s s2 i t w r hc ht hw (exec_eq _ _ _ _ he)
    · rename_i pan hw
      by_cases hn : s.p.waitgroup.n - 1 < 0
      · have hn2 : s.p.waitgroup.n + -1 < 0 := by omega
        simp only [WaitGroup.Done, WaitGroup.Add, hn2, if_true, Option.some.injEq] at h
        subst h
        exact .taskDoneNeg s i t pan hc ht hw hn
      · have hn2 : ¬ s.p.waitgroup.n + -1 < 0 := by omega
        simp only [WaitGroup.Done, WaitGroup.Add, hn2, if_false, Option.some.injEq] at h
        subst h
        have := Step.taskDone s i t pan hc ht hw (by omega)
        simpa [Int.sub_eq_add_neg] using this
    · simp at h
  | runtime =>
    simp only [stepRuntime] at h
    split at h
    · rename_i e he
      simp only [Option.some.injEq] at h; subst h
      exact .runtimeDie s e hc he
    · simp at h

@[simp]
theorem P.recover_finished (p : P) (r : GoAny) : (p.recover r).1.finished = p.finished := by
  unfold P.recover
  split
  · rfl
  · split
    · split <;> rfl
    · rfl

@[simp]
theorem P.recover_waitgroup (p : P) (r : GoAny) :
    (p.recover r).1.waitgroup = p.waitgroup := by
  unfold P.recover
  split
  · rfl
  · split
    · split <;> rfl
    · rfl

@[simp]
theorem P.recover_OnPanic (p : P) (r : GoAny) : (p.recover r).1.OnPanic = p.OnPanic := by
  unfold P.recover
  split
  · rfl
  · split
    · split <;> rfl
    · rfl

@[simp]
theorem State.recover_tasks (s : State α) (who : Tid) (r : GoAny) : (s.recover who r).1.tasks = s.tasks := rfl
@[simp]
theorem State.recover_driver (s : State α) (who : Tid) (r : GoAny) :
    (s.recover who r).1.driver = s.driver := rfl

@[simp]
theorem State.recover_crashed (s : State α) (who : Tid) (r : GoAny) :
    (s.recover who r).1.crashed = s.crashed := rfl

@[simp]
theorem State.recover_fatal (s : State α) (who : Tid) (r : GoAny) :
    (s.recover who r).1.fatal = s.fatal := rfl

@[simp]
theorem State.recover_effects (s : State α) (who : Tid) (r : GoAny) :
    (s.recover who r).1.effects = s.effects := rfl

@[simp]
theorem State.recover_captured (s : State α) (who : Tid) (r : GoAny) :
    (s.recover who r).1.captured
      = s.captured ++ (r.map fun v => ⟨who, v, s.p.OnPanic v⟩).toList := rfl

@[simp]
theorem State.recover_p (s : State α) (who : Tid) (r : GoAny) :
    (s.recover who r).1.p = (s.p.recover r).1 := rfl

@[simp]
theorem State.recover_snd (s : State α) (who : Tid) (r : GoAny) :
    (s.recover who r).2 = (s.p.recover r).2 := rfl

theorem live_pos_of_get (ts : List (Task α)) (i : Nat) (t : Task α) (h : ts[i]? = some t)
    (hx : t.frame.isExited = false) : 0 < live ts := by
  have := live_set ts i t ⟨t.origin, .exited⟩ h
  rw [hx] at this
  simp [Frame.isExited] at this
  omega

/-- What `Work.exec` does to the counter and to the goroutines, under the invariant
(a frame can only be running while the scope is not sealed). -/
theorem Exec.inv {w : Work α} {s s1 : State α} {c : Ctl α} (he : Exec w s s1 c)
    (hc : s.p.waitgroup.n = (live s.tasks : Int)) :
    s1.p.waitgroup.n = (live s1.tasks : Int) ∧ s1.p.finished = s.p.finished ∧
      s1.driver = s.driver ∧
      (∀ (i : Nat) (t : Task α), s.tasks[i]? = some t → s1.tasks[i]? = some t) := by
  cases he <;> simp_all [State.spawned, live_append, live, Frame.isExited]
  intro i t ht
  obtain ⟨hlt, -⟩ := List.getElem?_eq_some.mp ht
  rw [List.getElem?_append_left hlt]
  exact ht

theorem step_inv {s s1 : State α} {t : Tid} (h : step s t = some s1) (hi : Inv s) : Inv s1 := by
  obtain ⟨hc, hd, hf⟩ := hi
  cases step_spec s s1 t h with
  | driverCont s2 w w1 hcr hdr he =>
    obtain ⟨h1, h2, -, -⟩ := he.inv hc
    exact ⟨h1, by simp [Driver.pastWait], by simp [h2, hf, hdr, Driver.pastSeal]⟩
  | driverLeft s2 w r hcr hdr he =>
    obtain ⟨h1, h2, -, -⟩ := he.inv hc
    exact ⟨by simpa using h1, by simp [Driver.pastWait], by simp [h2, hf, hdr, Driver.pastSeal]⟩
  | driverWait pan hcr hdr hn =>
    refine ⟨hc, fun _ => ?_, by simpa [hdr, Driver.pastSeal] using hf⟩
    simp only at hc ⊢
    omega
  | driverSeal pan hcr hdr =>
    exact ⟨hc, fun _ => hd (by simp [hdr, Driver.pastWait]), by simp [Driver.pastSeal]⟩
  | driverLoad pan hcr hdr =>
    exact ⟨hc, fun _ => hd (by simp [hdr, Driver.pastWait]),
      by simpa [hdr, Driver.pastSeal] using hf⟩
  | taskCont s2 i t w w1 hcr ht hfr he =>
    obtain ⟨h1, h2, h3, h4⟩ := he.inv hc
    have hl := live_set s2.tasks i t { t with frame := .run w1 } (h4 i t ht)
    have hpos := live_pos_of_get s.tasks i t ht (by simp [hfr, Frame.isExited])
    simp [hfr, Frame.isExited] at hl
    refine ⟨by simp only; rw [hl]; exact h1, fun hp => ?_, by simpa [h2, h3] using hf⟩
    have := hd (by simpa [h3] using hp)
    omega
  | taskLeft s2 i t w r hcr ht hfr he =>
    obtain ⟨h1, h2, h3, h4⟩ := he.inv hc
    have hl := live_set s2.tasks i t { t with frame := .done (s2.recover (.task i) r).2 } (h4 i t ht)
    have hpos := live_pos_of_get s.tasks i t ht (by simp [hfr, Frame.isExited])
    simp [hfr, Frame.isExited] at hl
    refine ⟨by simp; rw [hl]; exact h1, fun hp => ?_, by simpa [h2, h3] using hf⟩
    have := hd (by simpa [h3] using hp)
    omega
  | taskDone i t pan hcr ht hfr hn =>
    have hl := live_set s.tasks i t { t with frame := .exited } ht
    simp [hfr, Frame.isExited] at hl
    refine ⟨by simp only; omega, fun hp => ?_, hf⟩
    have := hd hp
    omega
  | taskDoneNeg i t pan hcr ht hfr hn =>
    have hpos := live_pos_of_get s.tasks i t ht (by simp [hfr, Frame.isExited])
    omega
  | runtimeDie e hcr hfa => exact ⟨hc, hd, hf⟩

theorem Do_inv (f : Work α) : Inv (Do f) :=
  ⟨by simp [Do, live], by simp [Do, Driver.pastWait], by simp [Do, Driver.pastSeal]⟩

theorem run_nil (s : State α) : run s [] = s := rfl

theorem run_cons (s : State α) (t : Tid) (ts : List Tid) :
    run s (t :: ts) = run ((step s t).getD s) ts := rfl

/-- A property kept by every action holds all along every run. -/
theorem run_induction (Q : State α → Prop) (hstep : ∀ s t s1, step s t = some s1 → Q s → Q s1) :
    ∀ (sched : List Tid) (s : State α), Q s → Q (run s sched)
  | [], _, h => h
  | t :: ts, s, h => by
    rw [run_cons]
    apply run_induction Q hstep ts
    cases hs : step s t with
    | none => simpa using h
    | some s1 => simpa using hstep s t s1 hs h

theorem run_inv (f : Work α) (sched : List Tid) : Inv (run (Do f) sched) :=
  run_induction Inv (fun _ _ _ h hi => step_inv h hi) sched _ (Do_inv f)

theorem P.recover_slot (p : P) (r : GoAny) :
    (p.recover r).1.panicked.v = (p.panicked.v <|> r.filter p.OnPanic) := by
  cases r with
  | none => simp [P.recover]
  | some v =>
    by_cases hφ : p.OnPanic v = true
    · cases hv : p.panicked.v with
      | none => simp [P.recover, hφ, Value.CompareAndSwap, hv, Option.filter]
      | some cur =>
        by_cases ht : cur.typ = v.typ
        · simp [P.recover, hφ, Value.CompareAndSwap, hv, ht]
        · simp [P.recover, hφ, Value.CompareAndSwap, hv, ht]
    · simp [P.recover, hφ, Option.filter]

theorem P.recover_pan (p : P) (r : GoAny) :
    (p.recover r).2 =
      match r, p.panicked.v with
      | some v, some cur =>
        if p.OnPanic v = true ∧ cur.typ ≠ v.typ then
          some (.str "sync/atomic: compare and swap of inconsistently typed value into Value")
        else none
      | _, _ => none := by
  cases r with
  | none => simp [P.recover]
  | some v =>
    by_cases hφ : p.OnPanic v = true
    · cases hv : p.panicked.v with
      | none => simp [P.recover, hφ, Value.CompareAndSwap, hv]
      | some cur =>
        by_cases ht : cur.typ = v.typ
        · simp [P.recover, hφ, Value.CompareAndSwap, hv, ht]
        · simp [P.recover, hφ, Value.CompareAndSwap, hv, ht]
    · cases hv : p.panicked.v <;> simp [P.recover, hφ]

theorem P.recover_pan_slot (p : P) (r : GoAny) (h : (p.recover r).2.isSome = true) :
    p.panicked.v.isSome = true := by
  rw [P.recover_pan] at h
  split at h
  · rename_i v cur hv
    simp [hv]
  · simp at h

theorem firstKept_append (l : List Capture) (who : Tid) (r : GoAny) (φ : GoVal → Bool) :
    firstKept (l ++ (r.map fun v => ⟨who, v, φ v⟩).toList) = (firstKept l <|> r.filter φ) := by
  cases r with
  | none => simp [firstKept]
  | some v =>
    cases h : l.find? (·.kept) with
    | none =>
      by_cases hφ : φ v = true <;> simp [firstKept, List.find?_append, h, hφ, Option.filter]
    | some x => simp [firstKept, List.find?_append, h]

theorem Exec.frame {w : Work α} {s s1 : State α} {c : Ctl α} (he : Exec w s s1 c) :
    s1.p.panicked = s.p.panicked ∧ s1.captured = s.captured ∧ s1.driver = s.driver ∧
      s1.crashed = s.crashed := by
  cases he <;> simp [State.spawned]

theorem Exec.fatal {w : Work α} {s s1 : State α} {c : Ctl α} (he : Exec w s s1 c) :
    s1.fatal = s.fatal := by
  cases he <;> simp [State.spawned]

theorem step_slotInv {s s1 : State α} {t : Tid} (h : step s t = some s1) (hinv : Inv s)
    (hi : SlotInv s) : SlotInv s1 := by
  obtain ⟨hfirst, hpan, hout⟩ := hi
  cases step_spec s s1 t h with
  | driverCont s2 w w1 hcr hdr he =>
    obtain ⟨h1, h2, h3, -⟩ := he.frame
    exact ⟨by simp [h1, h2, hfirst], by simp [Driver.pan], by simp⟩
  | driverLeft s2 w r hcr hdr he =>
    obtain ⟨h1, h2, h3, -⟩ := he.frame
    refine ⟨?_, ?_, by simp⟩
    · simp [P.recover_slot, firstKept_append, h1, h2, hfirst]
    · intro hp
      have := P.recover_pan_slot s2.p r (by simpa [Driver.pan] using hp)
      simp only [State.recover_p, P.recover_slot]
      cases hv : s2.p.panicked.v with
      | none => simp [hv] at this
      | some x => simp
  | driverWait pan hcr hdr hn =>
    exact ⟨hfirst, by simpa [hdr, Driver.pan] using hpan, by simp⟩
  | driverSeal pan hcr hdr =>
    exact ⟨hfirst, by simpa [hdr, Driver.pan] using hpan, by simp⟩
  | driverLoad pan hcr hdr =>
    refine ⟨hfirst, by simp [Driver.pan], ?_⟩
    intro out ho
    simp only [Driver.exit.injEq] at ho
    subst ho
    cases hv : s.p.panicked.v with
    | some x => simp
    | none =>
      cases hp : pan with
      | none => simp
      | some e => simp [hdr, Driver.pan, hp, hv] at hpan
  | taskCont s2 i t w w1 hcr ht hfr he =>
    obtain ⟨h1, h2, h3, -⟩ := he.frame
    exact ⟨by simp [h1, h2, hfirst], by simpa [h1, h3] using hpan, by simpa [h1, h3] using hout⟩
  | taskLeft s2 i t w r hcr ht hfr he =>
    obtain ⟨h1, h2, h3, -⟩ := he.frame
    refine ⟨?_, ?_, ?_⟩
    · simp [P.recover_slot, firstKept_append, h1, h2, hfirst]
    · intro hp
      have := hpan (by simpa [h3] using hp)
      simp only [State.recover_p, P.recover_slot, h1]
      cases hv : s.p.panicked.v with
      | none => simp [hv] at this
      | some x => simp
    · intro out ho
      have hd : s.driver = .exit out := by simpa [h3] using ho
      have hpos := live_pos_of_get s.tasks i t ht (by simp [hfr, Frame.isExited])
      have := hinv.drained (by simp [hd, Driver.pastWait])
      omega
  | taskDone i t pan hcr ht hfr hn => exact ⟨hfirst, hpan, hout⟩
  | taskDoneNeg i t pan hcr ht hfr hn => exact ⟨hfirst, hpan, hout⟩
  | runtimeDie e hcr hfa => exact ⟨hfirst, hpan, hout⟩

theorem Do_slotInv (f : Work α) : SlotInv (Do f) :=
  ⟨by simp [Do, firstKept], by simp [Do, Driver.pan], by simp [Do]⟩

theorem run_slotInv (f : Work α) (sched : List Tid) : SlotInv (run (Do f) sched) :=
  (run_induction (fun s => Inv s ∧ SlotInv s)
    (fun _ _ _ h hi => ⟨step_inv h hi.1, step_slotInv h hi.1 hi.2⟩) sched _
    ⟨Do_inv f, Do_slotInv f⟩).2

theorem Work.cost_pos (w : Work α) : 0 < w.cost := by
  cases w <;> simp [Work.cost]

theorem Exec.fuel {w : Work α} {s s1 : State α} {c : Ctl α} (he : Exec w s s1 c) :
    (s1.tasks.map (fun t => t.frame.fuel)).sum + c.cost
      < (s.tasks.map (fun t => t.frame.fuel)).sum + w.cost ∧
    (∀ (i : Nat) (t : Task α), s.tasks[i]? = some t → s1.tasks[i]? = some t) := by
  constructor
  · cases he <;> simp [State.spawned, Ctl.cost, Work.cost, Frame.fuel]
    omega
  · cases he <;> simp [State.spawned]
    intro i t ht
    obtain ⟨hlt, -⟩ := List.getElem?_eq_some.mp ht
    rw [List.getElem?_append_left hlt]
    exact ht

theorem step_fuel {s s1 : State α} {t : Tid} (h : step s t = some s1) : s1.fuel < s.fuel := by
  cases step_spec s s1 t h with
  | driverCont s2 w w1 hcr hdr he =>
    have := he.fuel.1
    have h6 : s2.crashed = s.crashed := he.frame.2.2.2
    simp only [State.fuel, State.pending, hdr, Driver.fuel, Ctl.cost, h6, he.fatal] at this ⊢
    omega
  | driverLeft s2 w r hcr hdr he =>
    have := he.fuel.1
    have h6 : s2.crashed = s.crashed := he.frame.2.2.2
    simp only [State.fuel, State.pending, hdr, Driver.fuel, Ctl.cost, State.recover_tasks,
      State.recover_crashed, State.recover_fatal, h6, he.fatal] at this ⊢
    omega
  | driverWait pan hcr hdr hn => simp [State.fuel, State.pending, hdr, Driver.fuel]
  | driverSeal pan hcr hdr => simp [State.fuel, State.pending, hdr, Driver.fuel]
  | driverLoad pan hcr hdr => simp [State.fuel, State.pending, hdr, Driver.fuel]
  | taskCont s2 i t w w1 hcr ht hfr he =>
    obtain ⟨h1, h2⟩ := he.fuel
    have h3 := sum_map_set (fun t => t.frame.fuel) s2.tasks i t { t with frame := .run w1 }
      (h2 i t ht)
    have h4 := sum_map_set (fun t => t.frame.fuel) s.tasks i t t ht
    have h5 : s2.driver = s.driver := he.frame.2.2.1
    have h6 : s2.crashed = s.crashed := he.frame.2.2.2
    simp only [State.fuel, State.pending, Ctl.cost, hfr, Frame.fuel, h5, h6, he.fatal]
      at h1 h3 h4 ⊢
    omega
  | taskLeft s2 i t w r hcr ht hfr he =>
    obtain ⟨h1, h2⟩ := he.fuel
    have h3 := sum_map_set (fun t => t.frame.fuel) s2.tasks i t
      { t with frame := .done (s2.recover (.task i) r).2 } (h2 i t ht)
    have h4 := sum_map_set (fun t => t.frame.fuel) s.tasks i t t ht
    have h5 : s2.driver = s.driver := he.frame.2.2.1
    have h6 : s2.crashed = s.crashed := he.frame.2.2.2
    simp only [State.fuel, State.pending, Ctl.cost, hfr, Frame.fuel, h5, h6, he.fatal,
      State.recover_tasks, State.recover_driver, State.recover_crashed, State.recover_fatal]
      at h1 h3 h4 ⊢
    omega
  | taskDone i t pan hcr ht hfr hn =>
    have h3 := sum_map_set (fun t => t.frame.fuel) s.tasks i t { t with frame := .exited } ht
    have h7 : (if (s.fatal <|> pan).isSome = true then 1 else 0)
        ≤ (if s.fatal.isSome = true then 1 else 0) + 1 := by split <;> omega
    simp only [State.fuel, State.pending, hfr, Frame.fuel, hcr, Option.isSome_none,
      Bool.false_eq_true, if_false] at h3 h7 ⊢
    omega
  | taskDoneNeg i t pan hcr ht hfr hn =>
    have h3 := sum_map_set (fun t => t.frame.fuel) s.tasks i t { t with frame := .exited } ht
    have h7 : (if (s.fatal <|> some (GoVal.str "sync: negative WaitGroup counter")).isSome = true
        then 1 else 0) ≤ (if s.fatal.isSome = true then 1 else 0) + 1 := by split <;> omega
    simp only [State.fuel, State.pending, hfr, Frame.fuel, hcr, Option.isSome_none,
      Bool.false_eq_true, if_false] at h3 h7 ⊢
    omega
  | runtimeDie e hcr hfa =>
    simp [State.fuel, State.pending, hcr, hfa]

theorem exists_live (ts : List (Task α)) (h : 0 < live ts) :
    ∃ (i : Nat) (t : Task α), ts[i]? = some t ∧ t.frame.isExited = false := by
  induction ts with
  | nil => simp [live] at h
  | cons a ts ih =>
    by_cases ha : a.frame.isExited = true
    · have : 0 < live ts := by
        simp only [live, List.map_cons, List.sum_cons, ha, if_true] at h ⊢
        omega
      obtain ⟨i, t, h1, h2⟩ := ih this
      exact ⟨i + 1, t, by simpa using h1, h2⟩
    · exact ⟨0, a, by simp, by simpa using ha⟩

theorem stepDriver_body (s : State α) (w : Work α) (h : s.driver = .body w) :
    (stepDriver s).isSome = true := by
  simp only [stepDriver, h]
  split <;> rfl

theorem stepTask_live (s : State α) (i : Nat) (t : Task α) (h : s.tasks[i]? = some t)
    (hx : t.frame.isExited = false) : (stepTask s i).isSome = true := by
  simp only [stepTask, h]
  split
  · split <;> rfl
  · split <;> rfl
  · rename_i hfr
    simp [hfr, Frame.isExited] at hx

/-- No deadlock: while `Do` is running and the process has not crashed, some
goroutine can move. -/
theorem progress {s : State α} (hi : Inv s) (hc : s.crashed = none) (hx : s.outcome = none) :
    ∃ t, (step s t).isSome = true := by
  cases hd : s.driver with
  | body w => exact ⟨.driver, by simp [step, hc, stepDriver_body s w hd]⟩
  | wait pan =>
    by_cases hn : s.p.waitgroup.n = 0
    · exact ⟨.driver, by simp [step, hc, stepDriver, State.wait, hd, hn]⟩
    · have hl : 0 < live s.tasks := by
        have := hi.count
        omega
      obtain ⟨i, t, h1, h2⟩ := exists_live s.tasks hl
      exact ⟨.task i, by simp [step, hc, stepTask_live s i t h1 h2]⟩
  | store pan => exact ⟨.driver, by simp [step, hc, stepDriver, State.wait, hd]⟩
  | load pan =>
    refine ⟨.driver, ?_⟩
    cases hv : s.p.panicked.Load <;> simp [step, hc, stepDriver, State.wait, hd, hv]
  | exit out => simp [State.outcome, hd] at hx

theorem Inv.running_driver {s : State α} (hi : Inv s) {w : Work α} (hd : s.driver = .body w) :
    s.p.finished = false ∧ 0 ≤ s.p.waitgroup.n := by
  refine ⟨by simp [hi.flag, hd, Driver.pastSeal], ?_⟩
  have := hi.count
  omega

theorem Driver.pastWait_of_pastSeal (d : Driver α) (h : d.pastSeal = true) :
    d.pastWait = true := by
  cases d <;> simp_all [Driver.pastSeal, Driver.pastWait]

theorem Inv.running_task {s : State α} (hi : Inv s) {i : Nat} {t : Task α} {w : Work α}
    (ht : s.tasks[i]? = some t) (hfr : t.frame = .run w) :
    s.p.finished = false ∧ 0 ≤ s.p.waitgroup.n := by
  have hpos := live_pos_of_get s.tasks i t ht (by simp [hfr, Frame.isExited])
  constructor
  · cases hfin : s.p.finished with
    | false => rfl
    | true =>
      have h1 : s.driver.pastSeal = true := by rw [← hi.flag]; exact hfin
      have := hi.drained (s.driver.pastWait_of_pastSeal h1)
      omega
  · have := hi.count
    omega

@[simp]
theorem wsum_nil (g : α → Nat) : wsum g [] = 0 := rfl
@[simp]
theorem wsum_cons (g : α → Nat) (x : α) (l : List α) :
    wsum g (x :: l) = g x + wsum g l := rfl

@[simp]
theorem wsum_append (g : α → Nat) (l1 l2 : List α) :
    wsum g (l1 ++ l2) = wsum g l1 + wsum g l2 := by
  simp [wsum]

theorem perm_of_wsum (l1 l2 : List α) (h : ∀ g, wsum g l1 = wsum g l2) : l1.Perm l2 := by
  classical
  rw [List.perm_iff_count]
  intro x
  have key : ∀ l : List α, List.count x l = wsum (fun y => if y = x then 1 else 0) l := by
    intro l
    induction l with
    | nil => rfl
    | cons a l ih =>
      rw [List.count_cons, ih, wsum_cons]
      by_cases hax : a = x <;> simp [hax, Nat.add_comm]
  rw [key, key]
  exact h _

theorem Exec.pend {w : Work α} {s s1 : State α} {c : Ctl α} (he : Exec w s s1 c)
    (hrun : s.p.finished = false ∧ 0 ≤ s.p.waitgroup.n) (g : α → Nat) :
    wsum g s1.effects + (s1.tasks.map (fun t => wsum g t.frame.pend)).sum + wsum g c.pend
      = wsum g s.effects + (s.tasks.map (fun t => wsum g t.frame.pend)).sum + wsum g w.pend := by
  cases he <;> simp [State.spawned, Ctl.pend, Work.pend, Frame.pend] <;> first | omega | simp_all

theorem Exec.keeps {w : Work α} {s s1 : State α} {c : Ctl α} (he : Exec w s s1 c) :
    ∀ (i : Nat) (t : Task α), s.tasks[i]? = some t → s1.tasks[i]? = some t := he.fuel.2

theorem step_weight {s s1 : State α} {t : Tid} (h : step s t = some s1) (hi : Inv s)
    (g : α → Nat) : s1.weight g = s.weight g := by
  cases step_spec s s1 t h with
  | driverCont s2 w w1 hcr hdr he =>
    have := he.pend (hi.running_driver hdr) g
    simp only [State.weight, hdr, Driver.pend, Ctl.pend] at this ⊢
    omega
  | driverLeft s2 w r hcr hdr he =>
    have := he.pend (hi.running_driver hdr) g
    simp only [State.weight, hdr, Driver.pend, Ctl.pend, State.recover_tasks,
      State.recover_effects, wsum_nil] at this ⊢
    omega
  | driverWait pan hcr hdr hn => simp [State.weight, hdr, Driver.pend]
  | driverSeal pan hcr hdr => simp [State.weight, hdr, Driver.pend]
  | driverLoad pan hcr hdr => simp [State.weight, hdr, Driver.pend]
  | taskCont s2 i t w w1 hcr ht hfr he =>
    have h1 := he.pend (hi.running_task ht hfr) g
    have h3 := sum_map_set (fun t => wsum g t.frame.pend) s2.tasks i t { t with frame := .run w1 }
      (he.keeps i t ht)
    have h5 : s2.driver = s.driver := he.frame.2.2.1
    simp only [State.weight, Ctl.pend, hfr, Frame.pend, h5] at h1 h3 ⊢
    omega
  | taskLeft s2 i t w r hcr ht hfr he =>
    have h1 := he.pend (hi.running_task ht hfr) g
    have h3 := sum_map_set (fun t => wsum g t.frame.pend) s2.tasks i t
      { t with frame := .done (s2.recover (.task i) r).2 } (he.keeps i t ht)
    have h5 : s2.driver = s.driver := he.frame.2.2.1
    simp only [State.weight, Ctl.pend, hfr, Frame.pend, h5, State.recover_tasks,
      State.recover_driver, State.recover_effects, wsum_nil] at h1 h3 ⊢
    omega
  | taskDone i t pan hcr ht hfr hn =>
    have h3 := sum_map_set (fun t => wsum g t.frame.pend) s.tasks i t { t with frame := .exited } ht
    simp only [State.weight, hfr, Frame.pend, wsum_nil] at h3 ⊢
    omega
  | taskDoneNeg i t pan hcr ht hfr hn =>
    have h3 := sum_map_set (fun t => wsum g t.frame.pend) s.tasks i t { t with frame := .exited } ht
    simp only [State.weight, hfr, Frame.pend, wsum_nil] at h3 ⊢
    omega
  | runtimeDie e hcr hfa => rfl

theorem run_weight (f : Work α) (sched : List Tid) (g : α → Nat) :
    (run (Do f) sched).weight g = wsum g f.pend :=
  (run_induction (fun s => Inv s ∧ s.weight g = wsum g f.pend)
    (fun _ _ _ h hi => ⟨step_inv h hi.1, by rw [step_weight h hi.1 g]; exact hi.2⟩) sched _
    ⟨Do_inv f, by simp [Do, State.weight, Driver.pend]⟩).2

theorem Exec.quiet {w : Work α} {s s1 : State α} {c : Ctl α} (he : Exec w s s1 c)
    (hrun : s.p.finished = false ∧ 0 ≤ s.p.waitgroup.n) (hw : w.quiet = true)
    (ht : ∀ t ∈ s.tasks, t.frame.quiet) :
    c.quiet ∧ ∀ t ∈ s1.tasks, t.frame.quiet := by
  cases he <;> simp_all [State.spawned, Ctl.quiet, Work.quiet, Frame.quiet]
  · omega
  · rintro t (h | h)
    · exact ht t h
    · subst h
      simpa [Frame.quiet] using hw.1

theorem mem_of_get {ts : List (Task α)} {i : Nat} {t : Task α} (h : ts[i]? = some t) :
    t ∈ ts := by
  obtain ⟨hlt, heq⟩ := List.getElem?_eq_some.mp h
  exact heq ▸ List.getElem_mem hlt

theorem forall_mem_set {Q : Task α → Prop} {ts : List (Task α)} (h : ∀ t ∈ ts, Q t) (i : Nat)
    (t1 : Task α) (h1 : Q t1) : ∀ t ∈ ts.set i t1, Q t := by
  intro t ht
  rcases List.mem_or_eq_of_mem_set ht with h2 | h2
  · exact h t h2
  · exact h2 ▸ h1

theorem step_quietInv {s s1 : State α} {t : Tid} (h : step s t = some s1) (hinv : Inv s)
    (hi : QuietInv s) : QuietInv s1 := by
  obtain ⟨hslot, hcrash, hfatal, hdrv, htasks⟩ := hi
  cases step_spec s s1 t h with
  | driverCont s2 w w1 hcr hdr he =>
    obtain ⟨h1, h2⟩ := he.quiet (hinv.running_driver hdr) (by simpa [hdr, Driver.quiet] using hdrv)
      htasks
    obtain ⟨f1, -, -, f4⟩ := he.frame
    exact ⟨by simpa [f1] using hslot, by simpa [f4] using hcrash,
      by simpa [he.fatal] using hfatal, by simpa [Driver.quiet, Ctl.quiet] using h1, h2⟩
  | driverLeft s2 w r hcr hdr he =>
    obtain ⟨h1, h2⟩ := he.quiet (hinv.running_driver hdr) (by simpa [hdr, Driver.quiet] using hdrv)
      htasks
    obtain ⟨f1, -, -, f4⟩ := he.frame
    simp only [Ctl.quiet] at h1
    subst h1
    exact ⟨by simpa [P.recover, f1] using hslot, by simpa [f4] using hcrash,
      by simpa [he.fatal] using hfatal, by simp [Driver.quiet, P.recover], by simpa using h2⟩
  | driverWait pan hcr hdr hn =>
    exact ⟨hslot, hcrash, hfatal, by simpa [hdr, Driver.quiet] using hdrv, htasks⟩
  | driverSeal pan hcr hdr =>
    exact ⟨hslot, hcrash, hfatal, by simpa [hdr, Driver.quiet] using hdrv, htasks⟩
  | driverLoad pan hcr hdr =>
    refine ⟨hslot, hcrash, hfatal, ?_, htasks⟩
    have : pan = none := by simpa [hdr, Driver.quiet] using hdrv
    simp [Driver.quiet, hslot, this]
  | taskCont s2 i t w w1 hcr ht hfr he =>
    have hq : t.frame.quiet := htasks t (mem_of_get ht)
    obtain ⟨h1, h2⟩ := he.quiet (hinv.running_task ht hfr) (by simpa [hfr, Frame.quiet] using hq)
      htasks
    obtain ⟨f1, -, f3, f4⟩ := he.frame
    exact ⟨by simpa [f1] using hslot, by simpa [f4] using hcrash,
      by simpa [he.fatal] using hfatal, by simpa [f3] using hdrv,
      forall_mem_set h2 i _ (by simpa [Frame.quiet, Ctl.quiet] using h1)⟩
  | taskLeft s2 i t w r hcr ht hfr he =>
    have hq : t.frame.quiet := htasks t (mem_of_get ht)
    obtain ⟨h1, h2⟩ := he.quiet (hinv.running_task ht hfr) (by simpa [hfr, Frame.quiet] using hq)
      htasks
    obtain ⟨f1, -, f3, f4⟩ := he.frame
    simp only [Ctl.quiet] at h1
    subst h1
    exact ⟨by simpa [P.recover, f1] using hslot, by simpa [f4] using hcrash,
      by simpa [he.fatal] using hfatal, by simpa [f3] using hdrv,
      forall_mem_set (by simpa using h2) i _ (by simp [Frame.quiet, P.recover])⟩
  | taskDone i t pan hcr ht hfr hn =>
    have hq : t.frame.quiet := htasks t (mem_of_get ht)
    have hp : pan = none := by simpa [hfr, Frame.quiet] using hq
    exact ⟨hslot, hcrash, by simp [hfatal, hp], hdrv,
      forall_mem_set htasks i _ (by simp [Frame.quiet])⟩
  | taskDoneNeg i t pan hcr ht hfr hn =>
    have hpos := live_pos_of_get s.tasks i t ht (by simp [hfr, Frame.isExited])
    have := hinv.count
    omega
  | runtimeDie e hcr hfa => simp [hfatal] at hfa

theorem run_quietInv (f : Work α) (hf : f.quiet = true) (sched : List Tid) :
    QuietInv (run (Do f) sched) :=
  (run_induction (fun s => Inv s ∧ QuietInv s)
    (fun _ _ _ h hi => ⟨step_inv h hi.1, step_quietInv h hi.1 hi.2⟩) sched _
    ⟨Do_inv f, ⟨rfl, rfl, rfl, by simpa [Do, Driver.quiet] using hf, by simp [Do]⟩⟩).2

theorem map_origin_set (ts : List (Task α)) (i : Nat) (t : Task α) (fr : Frame α)
    (h : ts[i]? = some t) :
    (ts.set i { t with frame := fr }).map (fun t => t.origin) = ts.map (fun t => t.origin) := by
  induction ts generalizing i with
  | nil => simp
  | cons a ts ih =>
    cases i with
    | zero =>
      simp at h
      subst h
      simp
    | succ i =>
      simp at h
      simp [ih i h]

theorem Exec.leaf {w : Work α} {s s1 : State α} {c : Ctl α} (he : Exec w s s1 c)
    (hw : w.spawns = []) : s1.tasks = s.tasks ∧ c.spawns = [] := by
  cases he <;> simp_all [Ctl.spawns, Work.spawns]

theorem Exec.order {w : Work α} {s s1 : State α} {c : Ctl α} (he : Exec w s s1 c)
    (hrun : s.p.finished = false ∧ 0 ≤ s.p.waitgroup.n)
    (hw : ∀ c ∈ w.spawns, c.spawns = []) (ht : ∀ t ∈ s.tasks, t.frame.spawns = []) :
    s1.tasks.map (fun t => t.origin) ++ c.spawns = s.tasks.map (fun t => t.origin) ++ w.spawns ∧
      ∀ t ∈ s1.tasks, t.frame.spawns = [] := by
  cases he <;> simp_all [State.spawned, Ctl.spawns, Work.spawns, Frame.spawns]
  · omega
  · rintro t (h | h)
    · exact ht t h
    · subst h
      simpa [Frame.spawns] using hw.1

theorem step_flatInv {f : Work α} (hf : ∀ c ∈ f.spawns, c.spawns = []) {s s1 : State α} {t : Tid}
    (h : step s t = some s1) (hinv : Inv s) (hi : FlatInv f s) : FlatInv f s1 := by
  obtain ⟨hord, hleaf⟩ := hi
  cases step_spec s s1 t h with
  | driverCont s2 w w1 hcr hdr he =>
    have hsp : ∀ c ∈ w.spawns, c.spawns = [] := fun c hc =>
      hf c (by rw [← hord, hdr]; simp [Driver.spawns, hc])
    obtain ⟨h1, h2⟩ := he.order (hinv.running_driver hdr) hsp hleaf
    have hord2 : s.tasks.map (fun t => t.origin) ++ w.spawns = f.spawns := by
      simpa [hdr, Driver.spawns] using hord
    exact ⟨by simpa [Driver.spawns, Ctl.spawns] using h1.trans hord2, h2⟩
  | driverLeft s2 w r hcr hdr he =>
    have hsp : ∀ c ∈ w.spawns, c.spawns = [] := fun c hc =>
      hf c (by rw [← hord, hdr]; simp [Driver.spawns, hc])
    obtain ⟨h1, h2⟩ := he.order (hinv.running_driver hdr) hsp hleaf
    have hord2 : s.tasks.map (fun t => t.origin) ++ w.spawns = f.spawns := by
      simpa [hdr, Driver.spawns] using hord
    exact ⟨by simpa [Driver.spawns, Ctl.spawns] using h1.trans hord2, by simpa using h2⟩
  | driverWait pan hcr hdr hn => exact ⟨by simpa [hdr, Driver.spawns] using hord, hleaf⟩
  | driverSeal pan hcr hdr => exact ⟨by simpa [hdr, Driver.spawns] using hord, hleaf⟩
  | driverLoad pan hcr hdr => exact ⟨by simpa [hdr, Driver.spawns] using hord, hleaf⟩
  | taskCont s2 i t w w1 hcr ht hfr he =>
    have hq := hleaf t (mem_of_get ht)
    obtain ⟨h1, h2⟩ := he.leaf (by simpa [hfr, Frame.spawns] using hq)
    have f3 : s2.driver = s.driver := he.frame.2.2.1
    refine ⟨?_, ?_⟩
    · simp only [h1, f3]
      rw [map_origin_set s.tasks i t _ ht]
      exact hord
    · simp only [h1]
      exact forall_mem_set hleaf i _ (by simpa [Frame.spawns, Ctl.spawns] using h2)
  | taskLeft s2 i t w r hcr ht hfr he =>
    have hq := hleaf t (mem_of_get ht)
    obtain ⟨h1, h2⟩ := he.leaf (by simpa [hfr, Frame.spawns] using hq)
    have f3 : s2.driver = s.driver := he.frame.2.2.1
    refine ⟨?_, ?_⟩
    · simp only [State.recover_tasks, State.recover_driver, h1, f3]
      rw [map_origin_set s.tasks i t _ ht]
      exact hord
    · simp only [State.recover_tasks, h1]
      exact forall_mem_set hleaf i _ (by simp [Frame.spawns])
  | taskDone i t pan hcr ht hfr hn =>
    refine ⟨?_, forall_mem_set hleaf i _ (by simp [Frame.spawns])⟩
    simp only
    rw [map_origin_set s.tasks i t _ ht]
    exact hord
  | taskDoneNeg i t pan hcr ht hfr hn =>
    refine ⟨?_, forall_mem_set hleaf i _ (by simp [Frame.spawns])⟩
    simp only
    rw [map_origin_set s.tasks i t _ ht]
    exact hord
  | runtimeDie e hcr hfa => exact ⟨hord, hleaf⟩

theorem run_flatInv (f : Work α) (hf : ∀ c ∈ f.spawns, c.spawns = []) (sched : List Tid) :
    FlatInv f (run (Do f) sched) :=
  (run_induction (fun s => Inv s ∧ FlatInv f s)
    (fun _ _ _ h hi => ⟨step_inv h hi.1, step_flatInv hf h hi.1 hi.2⟩) sched _
    ⟨Do_inv f, ⟨by simp [Do, Driver.spawns], by simp [Do]⟩⟩).2

theorem Exec.fails {w : Work α} {s s1 : State α} {c : Ctl α} (he : Exec w s s1 c)
    (hrun : s.p.finished = false ∧ 0 ≤ s.p.waitgroup.n) (g : GoVal → Nat) :
    (s1.tasks.map (fun t => wsum g t.frame.fails)).sum + wsum g c.fails
      = (s.tasks.map (fun t => wsum g t.frame.fails)).sum + wsum g w.fails := by
  cases he <;> simp [State.spawned, Ctl.fails, Work.fails, Frame.fails] <;>
    first | omega | simp_all

theorem Exec.taskFails {w : Work α} {s s1 : State α} {c : Ctl α} (he : Exec w s s1 c)
    (hrun : s.p.finished = false ∧ 0 ≤ s.p.waitgroup.n) (g : GoVal → Nat) :
    (s1.tasks.map (fun t => wsum g t.frame.fails)).sum + wsum g c.taskFails
      = (s.tasks.map (fun t => wsum g t.frame.fails)).sum + wsum g w.taskFails := by
  cases he <;> simp [State.spawned, Ctl.taskFails, Work.taskFails, Frame.fails] <;>
    first | omega | simp_all

theorem wsum_toList (g : GoVal → Nat) (who : Tid) (φ : GoVal → Bool) (r : GoAny) :
    wsum g ((r.map fun v => (⟨who, v, φ v⟩ : Capture)).toList.map (·.val)) = wsum g r.toList := by
  cases r <;> simp

theorem byTasks_append_driver (l : List Capture) (φ : GoVal → Bool) (r : GoAny) :
    byTasks (l ++ (r.map fun v => (⟨.driver, v, φ v⟩ : Capture)).toList) = byTasks l := by
  cases r <;> simp [byTasks]

theorem byTasks_append_task (l : List Capture) (i : Nat) (φ : GoVal → Bool) (r : GoAny) :
    byTasks (l ++ (r.map fun v => (⟨.task i, v, φ v⟩ : Capture)).toList)
      = byTasks l ++ r.toList := by
  cases r <;> simp [byTasks]

theorem step_failWeight {s s1 : State α} {t : Tid} (h : step s t = some s1) (hi : Inv s)
    (g : GoVal → Nat) :
    s1.failWeight g = s.failWeight g ∧ s1.taskFailWeight g = s.taskFailWeight g := by
  cases step_spec s s1 t h with
  | driverCont s2 w w1 hcr hdr he =>
    have h1 := he.fails (hi.running_driver hdr) g
    have h2 := he.taskFails (hi.running_driver hdr) g
    have h3 : s2.captured = s.captured := he.frame.2.1
    simp only [State.failWeight, State.taskFailWeight, hdr, Driver.fails, Driver.taskFails,
      Ctl.fails, Ctl.taskFails, h3] at h1 h2 ⊢
    omega
  | driverLeft s2 w r hcr hdr he =>
    have h1 := he.fails (hi.running_driver hdr) g
    have h2 := he.taskFails (hi.running_driver hdr) g
    have h3 : s2.captured = s.captured := he.frame.2.1
    simp only [State.failWeight, State.taskFailWeight, hdr, Driver.fails, Driver.taskFails,
      Ctl.fails, Ctl.taskFails, h3, State.recover_tasks, State.recover_captured, List.map_append,
      wsum_append, wsum_toList, byTasks_append_driver, wsum_nil] at h1 h2 ⊢
    omega
  | driverWait pan hcr hdr hn =>
    simp [State.failWeight, State.taskFailWeight, hdr, Driver.fails, Driver.taskFails]
  | driverSeal pan hcr hdr =>
    simp [State.failWeight, State.taskFailWeight, hdr, Driver.fails, Driver.taskFails]
  | driverLoad pan hcr hdr =>
    simp [State.failWeight, State.taskFailWeight, hdr, Driver.fails, Driver.taskFails]
  | taskCont s2 i t w w1 hcr ht hfr he =>
    have h1 := he.fails (hi.running_task ht hfr) g
    have h3 := sum_map_set (fun t => wsum g t.frame.fails) s2.tasks i t { t with frame := .run w1 }
      (he.keeps i t ht)
    have h4 : s2.captured = s.captured := he.frame.2.1
    have h5 : s2.driver = s.driver := he.frame.2.2.1
    simp only [State.failWeight, State.taskFailWeight, Ctl.fails, hfr, Frame.fails, h4, h5]
      at h1 h3 ⊢
    omega
  | taskLeft s2 i t w r hcr ht hfr he =>
    have h1 := he.fails (hi.running_task ht hfr) g
    have h3 := sum_map_set (fun t => wsum g t.frame.fails) s2.tasks i t
      { t with frame := .done (s2.recover (.task i) r).2 } (he.keeps i t ht)
    have h4 : s2.captured = s.captured := he.frame.2.1
    have h5 : s2.driver = s.driver := he.frame.2.2.1
    simp only [State.failWeight, State.taskFailWeight, Ctl.fails, hfr, Frame.fails, h4, h5,
      State.recover_tasks, State.recover_driver, State.recover_captured, List.map_append,
      wsum_append, wsum_toList, byTasks_append_task, wsum_nil] at h1 h3 ⊢
    omega
  | taskDone i t pan hcr ht hfr hn =>
    have h3 := sum_map_set (fun t => wsum g t.frame.fails) s.tasks i t { t with frame := .exited } ht
    simp only [State.failWeight, State.taskFailWeight, hfr, Frame.fails, wsum_nil] at h3 ⊢
    omega
  | taskDoneNeg i t pan hcr ht hfr hn =>
    have h3 := sum_map_set (fun t => wsum g t.frame.fails) s.tasks i t { t with frame := .exited } ht
    simp only [State.failWeight, State.taskFailWeight, hfr, Frame.fails, wsum_nil] at h3 ⊢
    omega
  | runtimeDie e hcr hfa => exact ⟨rfl, rfl⟩

theorem run_failWeight (f : Work α) (sched : List Tid) (g : GoVal → Nat) :
    (run (Do f) sched).failWeight g = wsum g f.fails ∧
      (run (Do f) sched).taskFailWeight g = wsum g f.taskFails :=
  (run_induction
    (fun s => Inv s ∧ s.failWeight g = wsum g f.fails ∧ s.taskFailWeight g = wsum g f.taskFails)
    (fun _ _ _ h hi => ⟨step_inv h hi.1, by
      obtain ⟨h1, h2⟩ := step_failWeight h hi.1 g
      rw [h1, h2]
      exact hi.2⟩) sched _
    ⟨Do_inv f, by simp [Do, State.failWeight, Driver.fails],
      by simp [Do, State.taskFailWeight, Driver.taskFails, byTasks]⟩).2

theorem Exec.noSet {w : Work α} {s s1 : State α} {c : Ctl α} (he : Exec w s s1 c)
    (hw : w.noSet = true) (ht : ∀ t ∈ s.tasks, t.frame.noSet) :
    s1.p.OnPanic = s.p.OnPanic ∧ c.noSet ∧ ∀ t ∈ s1.tasks, t.frame.noSet := by
  cases he <;> simp_all [State.spawned, Ctl.noSet, Work.noSet, Frame.noSet]
  rintro t (h | h)
  · exact ht t h
  · subst h
    simpa [Frame.noSet] using hw.1

theorem hist_append {φ : GoVal → Bool} {l : List Capture} (h : ∀ c ∈ l, c.kept = φ c.val)
    (who : Tid) (r : GoAny) :
    ∀ c ∈ l ++ (r.map fun v => (⟨who, v, φ v⟩ : Capture)).toList, c.kept = φ c.val := by
  intro c hc
  rcases List.mem_append.mp hc with h1 | h1
  · exact h c h1
  · cases r with
    | none => simp at h1
    | some v =>
      simp at h1
      subst h1
      rfl

theorem step_filterInv {φ : GoVal → Bool} {s s1 : State α} {t : Tid} (h : step s t = some s1)
    (hi : FilterInv φ s) : FilterInv φ s1 := by
  obtain ⟨hnow, htasks, hhist⟩ := hi
  rcases hnow with ⟨hfil, hdrv⟩ | ⟨rest, hbody, hrest, hnil, hcap⟩
  · cases step_spec s s1 t h with
    | driverCont s2 w w1 hcr hdr he =>
      obtain ⟨h1, h2, h3⟩ := he.noSet (by simpa [hdr, Driver.noSet] using hdrv) htasks
      exact ⟨.inl ⟨by simpa [h1] using hfil, by simpa [Driver.noSet, Ctl.noSet] using h2⟩, h3,
        by simpa [he.frame.2.1] using hhist⟩
    | driverLeft s2 w r hcr hdr he =>
      obtain ⟨h1, h2, h3⟩ := he.noSet (by simpa [hdr, Driver.noSet] using hdrv) htasks
      refine ⟨.inl ⟨by simpa [h1] using hfil, by simp [Driver.noSet]⟩, by simpa using h3, ?_⟩
      simp only [State.recover_captured, he.frame.2.1, h1, hfil]
      exact hist_append hhist _ _
    | driverWait pan hcr hdr hn => exact ⟨.inl ⟨hfil, by simp [Driver.noSet]⟩, htasks, hhist⟩
    | driverSeal pan hcr hdr => exact ⟨.inl ⟨hfil, by simp [Driver.noSet]⟩, htasks, hhist⟩
    | driverLoad pan hcr hdr => exact ⟨.inl ⟨hfil, by simp [Driver.noSet]⟩, htasks, hhist⟩
    | taskCont s2 i t w w1 hcr ht hfr he =>
      have hq : t.frame.noSet := htasks t (mem_of_get ht)
      obtain ⟨h1, h2, h3⟩ := he.noSet (by simpa [hfr, Frame.noSet] using hq) htasks
      exact ⟨.inl ⟨by simpa [h1] using hfil, by simpa [he.frame.2.2.1] using hdrv⟩,
        forall_mem_set h3 i _ (by simpa [Frame.noSet, Ctl.noSet] using h2),
        by simpa [he.frame.2.1] using hhist⟩
    | taskLeft s2 i t w r hcr ht hfr he =>
      have hq : t.frame.noSet := htasks t (mem_of_get ht)
      obtain ⟨h1, h2, h3⟩ := he.noSet (by simpa [hfr, Frame.noSet] using hq) htasks
      refine ⟨.inl ⟨by simpa [h1] using hfil, by simpa [he.frame.2.2.1] using hdrv⟩,
        forall_mem_set (by simpa using h3) i _ (by simp [Frame.noSet]), ?_⟩
      simp only [State.recover_captured, he.frame.2.1, h1, hfil]
      exact hist_append hhist _ _
    | taskDone i t pan hcr ht hfr hn =>
      exact ⟨.inl ⟨hfil, hdrv⟩, forall_mem_set htasks i _ (by simp [Frame.noSet]), hhist⟩
    | taskDoneNeg i t pan hcr ht hfr hn =>
      exact ⟨.inl ⟨hfil, hdrv⟩, forall_mem_set htasks i _ (by simp [Frame.noSet]), hhist⟩
    | runtimeDie e hcr hfa => exact ⟨.inl ⟨hfil, hdrv⟩, htasks, hhist⟩
  · cases step_spec s s1 t h with
    | driverCont s2 w w1 hcr hdr he =>
      rw [hbody] at hdr
      simp only [Driver.body.injEq] at hdr
      subst hdr
      cases he with
      | setOnPanic _ _ _ =>
        exact ⟨.inl ⟨rfl, by simpa [Driver.noSet] using hrest⟩, by simp [hnil], by simp [hcap]⟩
    | driverLeft s2 w r hcr hdr he =>
      rw [hbody] at hdr
      simp only [Driver.body.injEq] at hdr
      subst hdr
      cases he
    | driverWait pan hcr hdr hn => simp [hbody] at hdr
    | driverSeal pan hcr hdr => simp [hbody] at hdr
    | driverLoad pan hcr hdr => simp [hbody] at hdr
    | taskCont s2 i t w w1 hcr ht hfr he => simp [hnil] at ht
    | taskLeft s2 i t w r hcr ht hfr he => simp [hnil] at ht
    | taskDone i t pan hcr ht hfr hn => simp [hnil] at ht
    | taskDoneNeg i t pan hcr ht hfr hn => simp [hnil] at ht
    | runtimeDie e hcr hfa => exact ⟨.inr ⟨rest, hbody, hrest, hnil, hcap⟩, htasks, hhist⟩

theorem run_filterInv (φ : GoVal → Bool) (f : Work α) (hf : f.filtered φ) (sched : List Tid) :
    FilterInv φ (run (Do f) sched) := by
  apply run_induction (FilterInv φ) (fun _ _ _ h hi => step_filterInv h hi) sched
  rcases hf with ⟨h1, h2⟩ | ⟨rest, h1, h2⟩
  · exact ⟨.inl ⟨by simp [Do, h2], by simpa [Do, Driver.noSet] using h1⟩, by simp [Do],
      by simp [Do]⟩
  · exact ⟨.inr ⟨rest, by simp [Do, h1], h2, rfl, rfl⟩, by simp [Do], by simp [Do]⟩

theorem step_slot_mono {s s1 : State α} {t : Tid} (h : step s t = some s1) {x : GoVal}
    (hx : s.p.panicked.v = some x) : s1.p.panicked.v = some x := by
  cases step_spec s s1 t h with
  | driverCont s2 w w1 hcr hdr he => simpa [he.frame.1] using hx
  | driverLeft s2 w r hcr hdr he => simp [P.recover_slot, he.frame.1, hx]
  | driverWait pan hcr hdr hn => exact hx
  | driverSeal pan hcr hdr => exact hx
  | driverLoad pan hcr hdr => exact hx
  | taskCont s2 i t w w1 hcr ht hfr he => simpa [he.frame.1] using hx
  | taskLeft s2 i t w r hcr ht hfr he => simp [P.recover_slot, he.frame.1, hx]
  | taskDone i t pan hcr ht hfr hn => exact hx
  | taskDoneNeg i t pan hcr ht hfr hn => exact hx
  | runtimeDie e hcr hfa => exact hx

theorem get_set_ne (ts : List (Task α)) (i j : Nat) (t t1 : Task α) (hij : i ≠ j)
    (h : ts[j]? = some t) : (ts.set i t1)[j]? = some t := by
  rw [List.getElem?_set_ne hij]
  exact h

theorem get_set_eq (ts : List (Task α)) (i : Nat) (t t1 : Task α) (h : ts[i]? = some t) :
    (ts.set i t1)[i]? = some t1 := by
  obtain ⟨hlt, -⟩ := List.getElem?_eq_some.mp h
  simp [List.getElem?_set, hlt]

theorem step_doomed {s s1 : State α} {t : Tid} (h : step s t = some s1) (hd : Doomed s) :
    Doomed s1 := by
  have hspec := step_spec s s1 t h
  rcases hd with hd | hd | ⟨j, tj, e, hj, hje⟩
  · cases hspec <;> simp_all
  · cases hspec with
    | driverCont s2 w w1 hcr hdr he => exact .inr (.inl (by simpa [he.fatal] using hd))
    | driverLeft s2 w r hcr hdr he => exact .inr (.inl (by simpa [he.fatal] using hd))
    | driverWait pan hcr hdr hn => exact .inr (.inl hd)
    | driverSeal pan hcr hdr => exact .inr (.inl hd)
    | driverLoad pan hcr hdr => exact .inr (.inl hd)
    | taskCont s2 i t w w1 hcr ht hfr he => exact .inr (.inl (by simpa [he.fatal] using hd))
    | taskLeft s2 i t w r hcr ht hfr he => exact .inr (.inl (by simpa [he.fatal] using hd))
    | taskDone i t pan hcr ht hfr hn =>
      obtain ⟨x, hx⟩ := Option.isSome_iff_exists.mp hd
      exact .inr (.inl (by simp [hx]))
    | taskDoneNeg i t pan hcr ht hfr hn =>
      obtain ⟨x, hx⟩ := Option.isSome_iff_exists.mp hd
      exact .inr (.inl (by simp [hx]))
    | runtimeDie e hcr hfa => exact .inl (by simp)
  · cases hspec with
    | driverCont s2 w w1 hcr hdr he => exact .inr (.inr ⟨j, tj, e, he.keeps j tj hj, hje⟩)
    | driverLeft s2 w r hcr hdr he => exact .inr (.inr ⟨j, tj, e, he.keeps j tj hj, hje⟩)
    | driverWait pan hcr hdr hn => exact .inr (.inr ⟨j, tj, e, hj, hje⟩)
    | driverSeal pan hcr hdr => exact .inr (.inr ⟨j, tj, e, hj, hje⟩)
    | driverLoad pan hcr hdr => exact .inr (.inr ⟨j, tj, e, hj, hje⟩)
    | taskCont s2 i t w w1 hcr ht hfr he =>
      by_cases hij : i = j
      · subst hij
        rw [ht] at hj
        simp only [Option.some.injEq] at hj
        subst hj
        simp [hfr] at hje
      · exact .inr (.inr ⟨j, tj, e, get_set_ne _ i j tj _ hij (he.keeps j tj hj), hje⟩)
    | taskLeft s2 i t w r hcr ht hfr he =>
      by_cases hij : i = j
      · subst hij
        rw [ht] at hj
        simp only [Option.some.injEq] at hj
        subst hj
        simp [hfr] at hje
      · exact .inr (.inr ⟨j, tj, e, get_set_ne _ i j tj _ hij (he.keeps j tj hj), hje⟩)
    | taskDone i t pan hcr ht hfr hn =>
      by_cases hij : i = j
      · subst hij
        rw [ht] at hj
        simp only [Option.some.injEq] at hj
        subst hj
        rw [hfr] at hje
        simp only [Frame.done.injEq] at hje
        refine .inr (.inl ?_)
        cases hfa : s.fatal <;> simp [hje]
      · exact .inr (.inr ⟨j, tj, e, get_set_ne _ i j tj _ hij hj, hje⟩)
    | taskDoneNeg i t pan hcr ht hfr hn =>
      refine .inr (.inl ?_)
      cases hfa : s.fatal <;> simp
    | runtimeDie e2 hcr hfa => exact .inl (by simp)

theorem step_doomInv {s s1 : State α} {t : Tid} (h : step s t = some s1)
    (hi : DoomInv s) : DoomInv s1 := by
  obtain ⟨htyped⟩ := hi
  have hold : ∀ c ∈ s.captured, c.who ≠ .driver → c.kept = true →
      (∃ x, s1.p.panicked.v = some x ∧ x.typ = c.val.typ) ∨ Doomed s1 := by
    intro c hc h1 h2
    rcases htyped c hc h1 h2 with ⟨x, hx, hxt⟩ | hd
    · exact .inl ⟨x, step_slot_mono h hx, hxt⟩
    · exact .inr (step_doomed h hd)
  cases step_spec s s1 t h with
  | driverCont s2 w w1 hcr hdr he => exact ⟨by simpa [he.frame.2.1] using hold⟩
  | driverLeft s2 w r hcr hdr he =>
    refine ⟨?_⟩
    intro c hc h1 h2
    simp only [State.recover_captured, he.frame.2.1] at hc
    rcases List.mem_append.mp hc with h3 | h3
    · exact hold c h3 h1 h2
    · cases r with
      | none => simp at h3
      | some v =>
        simp at h3
        subst h3
        simp at h1
  | driverWait pan hcr hdr hn => exact ⟨hold⟩
  | driverSeal pan hcr hdr => exact ⟨hold⟩
  | driverLoad pan hcr hdr => exact ⟨hold⟩
  | taskCont s2 i t w w1 hcr ht hfr he => exact ⟨by simpa [he.frame.2.1] using hold⟩
  | taskLeft s2 i t w r hcr ht hfr he =>
    refine ⟨?_⟩
    intro c hc h1 h2
    simp only [State.recover_captured, he.frame.2.1] at hc
    rcases List.mem_append.mp hc with h3 | h3
    · exact hold c h3 h1 h2
    · cases r with
      | none => simp at h3
      | some v =>
        simp at h3
        subst h3
        simp only at h2
        simp only [State.recover_p, P.recover_slot, State.recover_tasks, State.recover_snd]
        cases hv : s2.p.panicked.v with
        | none =>
          exact .inl ⟨v, by simp [Option.filter, h2]⟩
        | some cur =>
          by_cases hty : cur.typ = v.typ
          · exact .inl ⟨cur, by simp [hty]⟩
          · refine .inr (.inr (.inr ⟨i, { t with frame := .done (s2.p.recover (some v)).2 },
              .str "sync/atomic: compare and swap of inconsistently typed value into Value",
              get_set_eq _ i t _ (he.keeps i t ht), ?_⟩))
            simp [P.recover_pan, hv, h2, hty]
  | taskDone i t pan hcr ht hfr hn => exact ⟨hold⟩
  | taskDoneNeg i t pan hcr ht hfr hn => exact ⟨hold⟩
  | runtimeDie e hcr hfa => exact ⟨hold⟩

theorem run_doomInv (f : Work α) (sched : List Tid) : DoomInv (run (Do f) sched) :=
  run_induction DoomInv (fun _ _ _ h hi => step_doomInv h hi) sched _ ⟨by simp [Do]⟩

theorem exited_of_live_zero (ts : List (Task α)) (h : live ts = 0) :
    ∀ t ∈ ts, t.frame = .exited := by
  induction ts with
  | nil => simp
  | cons a ts ih =>
    simp only [live, List.map_cons, List.sum_cons] at h
    have ha : a.frame.isExited = true := by
      by_contra hne
      simp [hne] at h
    have hts : live ts = 0 := by
      simp only [live]
      omega
    intro t ht
    rcases List.mem_cons.mp ht with h1 | h1
    · subst h1
      cases hfr : t.frame <;> simp_all [Frame.isExited]
    · exact ih hts t h1

theorem sum_exited (h : Frame α → Nat) (h0 : h .exited = 0) (ts : List (Task α))
    (hts : ∀ t ∈ ts, t.frame = .exited) : (ts.map (fun t => h t.frame)).sum = 0 := by
  induction ts with
  | nil => rfl
  | cons a ts ih =>
    have ha := hts a (List.mem_cons_self _ _)
    have := ih (fun t ht => hts t (List.mem_cons_of_mem _ ht))
    simp [ha, h0, this]

theorem outcome_eq {s : State α} {out : GoAny} (h : s.outcome = some out) :
    s.driver = .exit out := by
  unfold State.outcome at h
  split at h
  · simp only [Option.some.injEq] at h
    subst h
    assumption
  · simp at h

theorem mem_of_wsum_pos (a : GoVal) (l : List GoVal)
    (h : 0 < wsum (fun y => if y = a then 1 else 0) l) : a ∈ l := by
  induction l with
  | nil => simp at h
  | cons b l ih =>
    by_cases hb : b = a
    · simp [hb]
    · simp only [wsum_cons, hb, if_false, Nat.zero_add] at h
      exact List.mem_cons_of_mem _ (ih h)

theorem wsum_pos_of_mem (a : GoVal) (l : List GoVal) (h : a ∈ l) :
    0 < wsum (fun y => if y = a then 1 else 0) l := by
  induction l with
  | nil => simp at h
  | cons b l ih =>
    rcases List.mem_cons.mp h with h1 | h1
    · subst h1
      simp
    · have := ih h1
      simp only [wsum_cons]
      omega

/-- When `Do` has left its frame every goroutine started by `Go` has ended, the flag is
set and the counter is 0. -/
theorem exit_state (f : Work α) (sched : List Tid) (out : GoAny)
    (h : (run (Do f) sched).outcome = some out) :
    (run (Do f) sched).driver = .exit out ∧
      (∀ t ∈ (run (Do f) sched).tasks, t.frame = .exited) ∧
      (run (Do f) sched).p.finished = true ∧
      (run (Do f) sched).p.waitgroup.n = 0 := by
  have hd := outcome_eq h
  have hinv := run_inv f sched
  have hlive := hinv.drained (by simp [hd, Driver.pastWait])
  refine ⟨hd, exited_of_live_zero _ hlive, by simp [hinv.flag, hd, Driver.pastSeal], ?_⟩
  have := hinv.count
  omega

/-- At the exit of `Do` the goroutines started by `Go` have raised all their panics. -/
theorem exit_byTasks (f : Work α) (sched : List Tid) (out : GoAny)
    (h : (run (Do f) sched).outcome = some out) (a : GoVal) (ha : a ∈ f.taskFails) :
    a ∈ byTasks (run (Do f) sched).captured := by
  obtain ⟨hd, hex, -, -⟩ := exit_state f sched out h
  apply mem_of_wsum_pos
  have h1 := (run_failWeight f sched (fun y => if y = a then 1 else 0)).2
  have h2 : ((run (Do f) sched).tasks.map
      (fun t => wsum (fun y => if y = a then 1 else 0) t.frame.fails)).sum = 0 :=
    sum_exited (fun fr => wsum (fun y => if y = a then 1 else 0) fr.fails) rfl _ hex
  have h3 := wsum_pos_of_mem a _ ha
  simp only [State.taskFailWeight, hd, Driver.taskFails, wsum_nil] at h1
  omega

/-- Two panics of different dynamic types in goroutines started by `Go`, both kept by
the filter: when `Do` has left its frame, a panic has left a goroutine, and the
runtime is ending the process or has ended it. -/
theorem exit_doomed (φ : GoVal → Bool) (f : Work α) (hns : f.filtered φ) (a b : GoVal)
    (ha : a ∈ f.taskFails) (hb : b ∈ f.taskFails) (hφa : φ a = true) (hφb : φ b = true)
    (hab : a.typ ≠ b.typ) (sched : List Tid) (out : GoAny)
    (hx : (run (Do f) sched).outcome = some out) :
    (run (Do f) sched).fatal.isSome = true ∨ (run (Do f) sched).crashed.isSome = true := by
  by_contra hne
  simp only [not_or] at hne
  obtain ⟨hd, hex, -, -⟩ := exit_state f sched out hx
  have hdoom := run_doomInv f sched
  have hfil := run_filterInv φ f hns sched
  have hnd : ¬ Doomed (run (Do f) sched) := by
    rintro (h1 | h1 | ⟨j, t, e, h1, h2⟩)
    · exact hne.2 h1
    · exact hne.1 h1
    · have := hex t (mem_of_get h1)
      simp [this] at h2
  have key : ∀ v ∈ f.taskFails, φ v = true →
      ∃ x, (run (Do f) sched).p.panicked.v = some x ∧ x.typ = v.typ := by
    intro v hv hφv
    have hm := exit_byTasks f sched out hx v hv
    simp only [byTasks, List.mem_map, List.mem_filter] at hm
    obtain ⟨c, ⟨hc1, hc2⟩, hc3⟩ := hm
    rcases hdoom.typed c hc1 (by simpa using hc2) (by rw [hfil.hist c hc1, hc3]; exact hφv)
      with h1 | h1
    · rw [hc3] at h1
      exact h1
    · exact absurd h1 hnd
  obtain ⟨x, hx1, hx2⟩ := key a ha hφa
  obtain ⟨y, hy1, hy2⟩ := key b hb hφb
  rw [hx1] at hy1
  simp only [Option.some.injEq] at hy1
  subst hy1
  exact hab (hx2.symm.trans hy2)

/-- Two panics of different dynamic types in goroutines started by `Go`, both kept by
the filter: under any schedule the process has ended or something can still move, so
every complete run ends with the end of the process. -/
theorem always_dies (φ : GoVal → Bool) (f : Work α) (hns : f.filtered φ) (a b : GoVal)
    (ha : a ∈ f.taskFails) (hb : b ∈ f.taskFails) (hφa : φ a = true) (hφb : φ b = true)
    (hab : a.typ ≠ b.typ) (sched : List Tid) :
    (run (Do f) sched).crashed.isSome = true ∨
      ∃ t, (step (run (Do f) sched) t).isSome = true := by
  cases hcr : (run (Do f) sched).crashed with
  | some e => exact .inl rfl
  | none =>
    right
    cases hx : (run (Do f) sched).outcome with
    | none => exact progress (run_inv f sched) hcr hx
    | some out =>
      rcases exit_doomed φ f hns a b ha hb hφa hφb hab sched out hx with h1 | h1
      · obtain ⟨e, he⟩ := Option.isSome_iff_exists.mp h1
        exact ⟨.runtime, by simp [step, hcr, stepRuntime, he]⟩
      · simp [hcr] at h1

/-- Every complete run ends with `Do` out of its frame or with a crash. -/
theorem stuck_cases (f : Work α) (sched : List Tid) (h : Stuck (run (Do f) sched)) :
    (run (Do f) sched).outcome ≠ none ∨ (run (Do f) sched).crashed ≠ none := by
  by_contra hne
  simp only [not_or, not_not] at hne
  obtain ⟨t, ht⟩ := progress (run_inv f sched) hne.2 hne.1
  simp [h t] at ht

theorem captured_mem_fails (f : Work α) (sched : List Tid) (c : Capture)
    (hc : c ∈ (run (Do f) sched).captured) : c.val ∈ f.fails := by
  apply mem_of_wsum_pos
  have h1 := (run_failWeight f sched (fun y => if y = c.val then 1 else 0)).1
  have h2 := wsum_pos_of_mem c.val ((run (Do f) sched).captured.map (·.val))
    (List.mem_map_of_mem _ hc)
  simp only [State.failWeight] at h1
  omega

theorem firstKept_some {l : List Capture} {v : GoVal} (h : firstKept l = some v) :
    ∃ c ∈ l, c.kept = true ∧ c.val = v := by
  simp only [firstKept, Option.map_eq_some'] at h
  obtain ⟨c, hc, hv⟩ := h
  exact ⟨c, List.mem_of_find?_eq_some hc, by simpa using List.find?_some hc, hv⟩

theorem le_sum_of_get (h : Task α → Nat) (ts : List (Task α)) (i : Nat) (t : Task α)
    (ht : ts[i]? = some t) : h t ≤ (ts.map h).sum := by
  induction ts generalizing i with
  | nil => simp at ht
  | cons a ts ih =>
    cases i with
    | zero =>
      simp at ht
      subst ht
      simp
    | succ i =>
      simp at ht
      have := ih i ht
      simp only [List.map_cons, List.sum_cons]
      omega

theorem Exec.calm {w : Work α} {s s1 : State α} {c : Ctl α} (he : Exec w s s1 c)
    (ht : ∀ t ∈ s.tasks, t.frame.pan = none) : ∀ t ∈ s1.tasks, t.frame.pan = none := by
  cases he <;> simp_all [State.spawned, Frame.pan]
  rintro t (h | h)
  · exact ht t h
  · subst h
    rfl

theorem Exec.left_some {w : Work α} {s s1 : State α} {v : GoVal}
    (he : Exec w s s1 (.left (some v))) (hrun : s.p.finished = false ∧ 0 ≤ s.p.waitgroup.n) :
    w = .fail v ∧ s1 = s := by
  cases he with
  | fail _ _ => exact ⟨rfl, rfl⟩
  | goSealed _ c r hf => simp [hrun.1] at hf
  | goNeg _ c r hf hn => omega

theorem mem_fails_of_captured {f : Work α} {s : State α}
    (hacct : ∀ g, s.failWeight g = wsum g f.fails ∧ s.taskFailWeight g = wsum g f.taskFails)
    (c : Capture) (hc : c ∈ s.captured) : c.val ∈ f.fails := by
  apply mem_of_wsum_pos
  have h1 := (hacct (fun y => if y = c.val then 1 else 0)).1
  have h2 := wsum_pos_of_mem c.val (s.captured.map (·.val)) (List.mem_map_of_mem _ hc)
  simp only [State.failWeight] at h1
  omega

theorem step_calmInv {φ : GoVal → Bool} {f : Work α} (hcons : f.consistent φ)
    {s s1 : State α} {t : Tid} (h : step s t = some s1) (hinv : Inv s) (hslot : SlotInv s)
    (hfil : FilterInv φ s)
    (hacct : ∀ g, s.failWeight g = wsum g f.fails ∧ s.taskFailWeight g = wsum g f.taskFails)
    (hi : CalmInv s) : CalmInv s1 := by
  obtain ⟨hcrash, hfatal, htasks⟩ := hi
  cases step_spec s s1 t h with
  | driverCont s2 w w1 hcr hdr he =>
    exact ⟨by simpa [he.frame.2.2.2] using hcrash, by simpa [he.fatal] using hfatal,
      he.calm htasks⟩
  | driverLeft s2 w r hcr hdr he =>
    exact ⟨by simpa [he.frame.2.2.2] using hcrash, by simpa [he.fatal] using hfatal,
      by simpa using he.calm htasks⟩
  | driverWait pan hcr hdr hn => exact ⟨hcrash, hfatal, htasks⟩
  | driverSeal pan hcr hdr => exact ⟨hcrash, hfatal, htasks⟩
  | driverLoad pan hcr hdr => exact ⟨hcrash, hfatal, htasks⟩
  | taskCont s2 i t w w1 hcr ht hfr he =>
    exact ⟨by simpa [he.frame.2.2.2] using hcrash, by simpa [he.fatal] using hfatal,
      forall_mem_set (he.calm htasks) i _ (by simp [Frame.pan])⟩
  | taskLeft s2 i t w r hcr ht hfr he =>
    refine ⟨by simpa [he.frame.2.2.2] using hcrash, by simpa [he.fatal] using hfatal,
      forall_mem_set (by simpa using he.calm htasks) i _ ?_⟩
    simp only [Frame.pan, State.recover_snd, P.recover_pan]
    split
    · rename_i v cur hslotv
      have hrun := hinv.running_task ht hfr
      obtain ⟨hw, hs2⟩ := he.left_some hrun
      subst hs2
      rw [if_neg]
      rintro ⟨hφv, hty⟩
      apply hty
      have hfilter : s2.p.OnPanic = φ := by
        rcases hfil.now with ⟨h1, -⟩ | ⟨rest, -, -, hnil, -⟩
        · exact h1
        · simp [hnil] at ht
      have hfirst : firstKept s2.captured = some cur := by rw [← hslot.first]; exact hslotv
      obtain ⟨c, hc, hk, hval⟩ := firstKept_some hfirst
      have hcur : cur ∈ f.fails := hval ▸ mem_fails_of_captured hacct c hc
      have hφcur : φ cur = true := by rw [← hval, ← hfil.hist c hc]; exact hk
      have hv : v ∈ f.taskFails := by
        apply mem_of_wsum_pos
        have h1 := (hacct (fun y => if y = v then 1 else 0)).2
        have h2 : wsum (fun y => if y = v then 1 else 0) t.frame.fails
            ≤ (s2.tasks.map
                (fun t => wsum (fun y => if y = v then 1 else 0) t.frame.fails)).sum :=
          le_sum_of_get (fun t => wsum (fun y => if y = v then 1 else 0) t.frame.fails)
            s2.tasks i t ht
        have h3 : wsum (fun y => if y = v then 1 else 0) t.frame.fails = 1 := by
          simp [hfr, Frame.fails, hw, Work.fails]
        simp only [State.taskFailWeight] at h1
        omega
      exact hcons cur hcur v hv hφcur (by rw [← hfilter]; exact hφv)
    · rfl
  | taskDone i t pan hcr ht hfr hn =>
    have := htasks t (mem_of_get ht)
    have hp : pan = none := by simpa [hfr, Frame.pan] using this
    exact ⟨hcrash, by simp [hfatal, hp], forall_mem_set htasks i _ (by simp [Frame.pan])⟩
  | taskDoneNeg i t pan hcr ht hfr hn =>
    have hpos := live_pos_of_get s.tasks i t ht (by simp [hfr, Frame.isExited])
    have := hinv.count
    omega
  | runtimeDie e hcr hfa => simp [hfatal] at hfa

theorem run_calmInv (φ : GoVal → Bool) (f : Work α) (hfilt : f.filtered φ)
    (hcons : f.consistent φ) (sched : List Tid) : CalmInv (run (Do f) sched) := by
  have key := run_induction
    (fun s => Inv s ∧ SlotInv s ∧ FilterInv φ s ∧
      (∀ g, s.failWeight g = wsum g f.fails ∧ s.taskFailWeight g = wsum g f.taskFails) ∧
      CalmInv s)
    (fun s t s1 h hi => ⟨step_inv h hi.1, step_slotInv h hi.1 hi.2.1, step_filterInv h hi.2.2.1,
      fun g => by
        obtain ⟨h1, h2⟩ := step_failWeight h hi.1 g
        rw [h1, h2]
        exact hi.2.2.2.1 g,
      step_calmInv hcons h hi.1 hi.2.1 hi.2.2.1 hi.2.2.2.1 hi.2.2.2.2⟩) sched (Do f)
    ⟨Do_inv f, Do_slotInv f, run_filterInv φ f hfilt [], fun g => run_failWeight f [] g,
      ⟨rfl, rfl, by simp [Do]⟩⟩
  exact key.2.2.2.2

/-- When the failures the filter keeps agree in dynamic type, under any schedule:
no panic leaves a goroutine and the process does not end; `Do` panics exactly when
the filter keeps one of the failures of the body and of the goroutines; and `Do` can
always go on until it has left its frame. -/
theorem do_panics_iff (φ : GoVal → Bool) (f : Work α) (hfilt : f.filtered φ)
    (hcons : f.consistent φ) (sched : List Tid) :
    ((run (Do f) sched).crashed = none ∧ (run (Do f) sched).fatal = none) ∧
    (∀ out, (run (Do f) sched).outcome = some out →
      (out.isSome = true ↔ ∃ v ∈ f.fails, φ v = true)) ∧
    ((run (Do f) sched).outcome = none → ∃ t, (step (run (Do f) sched) t).isSome = true) := by
  have hcalm := run_calmInv φ f hfilt hcons sched
  refine ⟨⟨hcalm.crashed, hcalm.fatal⟩, fun out hout => ?_,
    fun hout => progress (run_inv f sched) hcalm.crashed hout⟩
  obtain ⟨hd, hex, -, -⟩ := exit_state f sched out hout
  have hs := run_slotInv f sched
  have hfil := run_filterInv φ f hfilt sched
  have hout2 : out = firstKept (run (Do f) sched).captured := by
    rw [← hs.first]
    exact hs.out out hd
  constructor
  · intro hsome
    obtain ⟨v, hv⟩ := Option.isSome_iff_exists.mp hsome
    obtain ⟨c, hc, hk, hval⟩ := firstKept_some (hout2 ▸ hv).symm.symm
    refine ⟨v, hval ▸ mem_fails_of_captured (fun g => run_failWeight f sched g) c hc, ?_⟩
    rw [← hval, ← hfil.hist c hc]
    exact hk
  · rintro ⟨v, hv, hφv⟩
    have hm : v ∈ (run (Do f) sched).captured.map (·.val) := by
      apply mem_of_wsum_pos
      have h1 := (run_failWeight f sched (fun y => if y = v then 1 else 0)).1
      have h2 : ((run (Do f) sched).tasks.map
          (fun t => wsum (fun y => if y = v then 1 else 0) t.frame.fails)).sum = 0 :=
        sum_exited (fun fr => wsum (fun y => if y = v then 1 else 0) fr.fails) rfl _ hex
      have h3 := wsum_pos_of_mem v _ hv
      simp only [State.failWeight, hd, Driver.fails, wsum_nil] at h1
      omega
    obtain ⟨c, hc, hval⟩ := List.mem_map.mp hm
    have hk : c.kept = true := by rw [hfil.hist c hc, hval]; exact hφv
    rw [hout2]
    simp only [firstKept, Option.isSome_map']
    rw [List.find?_isSome]
    exact ⟨c, hc, hk⟩

/-- When `Do` has left its frame, the side effects of the body and of the goroutines
have all been performed, each once. -/
theorem do_effects (f : Work α) (sched : List Tid) (out : GoAny)
    (h : (run (Do f) sched).outcome = some out) : (run (Do f) sched).effects.Perm f.pend := by
  obtain ⟨hd, hex, -, -⟩ := exit_state f sched out h
  apply perm_of_wsum
  intro g
  have h1 := run_weight f sched g
  have h2 : ((run (Do f) sched).tasks.map (fun t => wsum g t.frame.pend)).sum = 0 :=
    sum_exited (fun fr => wsum g fr.pend) rfl _ hex
  simp only [State.weight, hd, Driver.pend, wsum_nil] at h1
  omega

theorem Each.call_pend {T : Type} (f : T → GoAny) (v : T) : (Each.call f v).pend = [v] := by
  unfold Each.call
  cases f v <;> rfl

theorem Each.call_spawns {T : Type} (f : T → GoAny) (v : T) : (Each.call f v).spawns = [] := by
  unfold Each.call
  cases f v <;> rfl

theorem Each.call_noSet {T : Type} (f : T → GoAny) (v : T) : (Each.call f v).noSet = true := by
  unfold Each.call
  cases f v <;> rfl

theorem Each.call_fails {T : Type} (f : T → GoAny) (v : T) :
    (Each.call f v).fails = (f v).toList := by
  unfold Each.call
  cases f v <;> rfl

theorem Each.loop_pend {T : Type} (f : T → GoAny) (items : List T) :
    (Each.loop f items).pend = items := by
  induction items with
  | nil => rfl
  | cons v vs ih =>
    show (Each.call f v).pend ++ (Each.loop f vs).pend = v :: vs
    rw [Each.call_pend, ih]
    rfl

theorem Each.loop_spawns {T : Type} (f : T → GoAny) (items : List T) :
    (Each.loop f items).spawns = items.map (Each.call f) := by
  induction items with
  | nil => rfl
  | cons v vs ih => simp [Each.loop, Work.spawns, ih]

theorem Each.loop_noSet {T : Type} (f : T → GoAny) (items : List T) :
    (Each.loop f items).noSet = true := by
  induction items with
  | nil => rfl
  | cons v vs ih =>
    show ((Each.call f v).noSet && (Each.loop f vs).noSet) = true
    rw [Each.call_noSet, ih]
    rfl

theorem Each.loop_taskFails {T : Type} (f : T → GoAny) (items : List T) :
    (Each.loop f items).taskFails = items.flatMap (fun v => (f v).toList) := by
  induction items with
  | nil => rfl
  | cons v vs ih =>
    show (Each.call f v).fails ++ (Each.loop f vs).taskFails = _
    rw [Each.call_fails, ih]
    simp

theorem Each.loop_quiet {T : Type} (f : T → GoAny) (items : List T)
    (hf : ∀ v ∈ items, f v = none) : (Each.loop f items).quiet = true := by
  induction items with
  | nil => rfl
  | cons v vs ih =>
    have hv : f v = none := hf v (List.mem_cons_self _ _)
    have := ih (fun x hx => hf x (List.mem_cons_of_mem _ hx))
    simp [Each.loop, Work.quiet, Each.call, hv, this]

theorem Each.loop_fails {T : Type} (f : T → GoAny) (items : List T) :
    (Each.loop f items).fails = items.flatMap (fun v => (f v).toList) := by
  induction items with
  | nil => rfl
  | cons v vs ih =>
    show (Each.call f v).fails ++ (Each.loop f vs).fails = _
    rw [Each.call_fails, ih]
    simp

theorem mem_flatMap_toList {T : Type} (f : T → GoAny) (items : List T) (x : GoVal) :
    x ∈ items.flatMap (fun v => (f v).toList) ↔ ∃ v ∈ items, f v = some x := by
  simp [List.mem_flatMap, Option.mem_toList]

/-- The call `Each(items, f)` when the values `f` panics with agree in dynamic type, under any
schedule: no panic leaves a goroutine and the process does not end; when `Each` has
left its frame, it has
panicked exactly if `f` panics on some element, with a value `f` panicked with on an
element, `f` has been called on every element, once, and every goroutine has ended;
and until then some goroutine can move. -/
theorem each_panics_iff {T : Type} (items : List T) (f : T → GoAny)
    (hcons : ∀ a ∈ items, ∀ b ∈ items, ∀ x y, f a = some x → f b = some y → x.typ = y.typ)
    (sched : List Tid) :
    ((run (Each items f) sched).crashed = none ∧ (run (Each items f) sched).fatal = none) ∧
    (∀ out, (run (Each items f) sched).outcome = some out →
      (out.isSome = true ↔ ∃ v ∈ items, (f v).isSome = true) ∧
      (∀ x, out = some x → ∃ v ∈ items, f v = some x) ∧
      (run (Each items f) sched).effects.Perm items ∧
      ∀ t ∈ (run (Each items f) sched).tasks, t.frame = .exited) ∧
    ((run (Each items f) sched).outcome = none →
      ∃ t, (step (run (Each items f) sched) t).isSome = true) := by
  have hc : (Each.loop f items).consistent (fun _ => true) := by
    intro a ha b hb _ _
    rw [Each.loop_fails, mem_flatMap_toList] at ha
    rw [Each.loop_taskFails, mem_flatMap_toList] at hb
    obtain ⟨u, hu, hua⟩ := ha
    obtain ⟨v, hv, hvb⟩ := hb
    exact hcons u hu v hv a b hua hvb
  obtain ⟨h1, h2, h3⟩ := do_panics_iff (fun _ => true) (Each.loop f items)
    (.inl ⟨Each.loop_noSet f items, rfl⟩) hc sched
  refine ⟨h1, fun out hout => ⟨?_, ?_, ?_, (exit_state _ sched out hout).2.1⟩, h3⟩
  · rw [h2 out hout]
    constructor
    · rintro ⟨x, hx, -⟩
      rw [Each.loop_fails, mem_flatMap_toList] at hx
      obtain ⟨v, hv, hvx⟩ := hx
      exact ⟨v, hv, by simp [hvx]⟩
    · rintro ⟨v, hv, hsome⟩
      obtain ⟨x, hx⟩ := Option.isSome_iff_exists.mp hsome
      exact ⟨x, by rw [Each.loop_fails, mem_flatMap_toList]; exact ⟨v, hv, hx⟩, rfl⟩
  · intro x hx
    subst hx
    have hs := run_slotInv (Each.loop f items) sched
    have hslot : firstKept (run (Do (Each.loop f items)) sched).captured = some x := by
      rw [← hs.first]
      exact (hs.out _ (outcome_eq hout)).symm
    obtain ⟨c, hcm, -, hval⟩ := firstKept_some hslot
    have := captured_mem_fails (Each.loop f items) sched c hcm
    rw [hval, Each.loop_fails, mem_flatMap_toList] at this
    exact this
  · have := do_effects (Each.loop f items) sched out hout
    rw [Each.loop_pend] at this
    exact this

theorem step_finished {s s1 : State α} {t : Tid} (h : step s t = some s1) (hinv : Inv s) :
    (s.p.finished = true → s1.p.finished = true) ∧
      (s.p.finished = false → s1.p.finished = true →
        t = .driver ∧ ∃ pan, s.driver = .store pan) := by
  cases step_spec s s1 t h with
  | driverCont s2 w w1 hcr hdr he =>
    have := (he.inv hinv.count).2.1
    simp_all
  | driverLeft s2 w r hcr hdr he =>
    have := (he.inv hinv.count).2.1
    simp_all
  | driverWait pan hcr hdr hn => simp_all
  | driverSeal pan hcr hdr => simp_all
  | driverLoad pan hcr hdr => simp_all
  | taskCont s2 i t w w1 hcr ht hfr he =>
    have := (he.inv hinv.count).2.1
    simp_all
  | taskLeft s2 i t w r hcr ht hfr he =>
    have := (he.inv hinv.count).2.1
    simp_all
  | taskDone i t pan hcr ht hfr hn => simp_all
  | taskDoneNeg i t pan hcr ht hfr hn => simp_all
  | runtimeDie e hcr hfa => simp_all

theorem recoverAll_slot (rs : List GoVal) (p : P) :
    (recoverAll p rs).panicked.v = (p.panicked.v <|> rs.find? p.OnPanic) ∧
      (recoverAll p rs).OnPanic = p.OnPanic := by
  induction rs generalizing p with
  | nil => simp [recoverAll]
  | cons r rs ih =>
    have h := ih (p.recover (some r)).1
    simp only [recoverAll, List.foldl_cons] at h ⊢
    rw [h.1, h.2, P.recover_slot, P.recover_OnPanic]
    refine ⟨?_, rfl⟩
    cases hv : p.panicked.v with
    | some x => simp
    | none =>
      by_cases hφ : p.OnPanic r = true <;> simp [Option.filter, hφ, List.find?_cons]

theorem Go_ok (s : State α) (child : Work α) (hf : s.p.finished = false)
    (hn : 0 ≤ s.p.waitgroup.n) : s.Go child = .ok (s.spawned child) := by
  have hn2 : ¬ s.p.waitgroup.n + 1 < 0 := by omega
  simp [State.Go, WaitGroup.Add, hf, hn2, State.spawned]

theorem step_done {s s1 : State α} {i : Nat} {t : Task α} {pan : GoAny} (hinv : Inv s)
    (ht : s.tasks[i]? = some t) (hfr : t.frame = .done pan) (h : step s (.task i) = some s1) :
    s1.p.waitgroup.n = s.p.waitgroup.n - 1 ∧ s1.tasks[i]? = some ⟨t.origin, .exited⟩ := by
  cases step_spec s s1 (.task i) h with
  | taskCont s2 _ t2 w w1 hcr ht2 hfr2 he =>
    rw [ht] at ht2
    simp only [Option.some.injEq] at ht2
    subst ht2
    simp [hfr] at hfr2
  | taskLeft s2 _ t2 w r hcr ht2 hfr2 he =>
    rw [ht] at ht2
    simp only [Option.some.injEq] at ht2
    subst ht2
    simp [hfr] at hfr2
  | taskDone _ t2 pan2 hcr ht2 hfr2 hn =>
    rw [ht] at ht2
    simp only [Option.some.injEq] at ht2
    subst ht2
    exact ⟨rfl, get_set_eq _ i t _ ht⟩
  | taskDoneNeg _ t2 pan2 hcr ht2 hfr2 hn =>
    have hpos := live_pos_of_get s.tasks i t ht (by simp [hfr, Frame.isExited])
    have := hinv.count
    omega

theorem step_run {s s1 : State α} {i : Nat} {t : Task α} {w : Work α}
    (ht : s.tasks[i]? = some t) (hfr : t.frame = .run w) (h : step s (.task i) = some s1) :
    ∃ t1, s1.tasks[i]? = some t1 ∧ t1.origin = t.origin ∧ t1.frame.isExited = false := by
  cases step_spec s s1 (.task i) h with
  | taskCont s2 _ t2 w w1 hcr ht2 hfr2 he =>
    rw [ht] at ht2
    simp only [Option.some.injEq] at ht2
    subst ht2
    exact ⟨_, get_set_eq _ i t _ (he.keeps i t ht), rfl, rfl⟩
  | taskLeft s2 _ t2 w r hcr ht2 hfr2 he =>
    rw [ht] at ht2
    simp only [Option.some.injEq] at ht2
    subst ht2
    exact ⟨_, get_set_eq _ i t _ (he.keeps i t ht), rfl, rfl⟩
  | taskDone _ t2 pan2 hcr ht2 hfr2 hn =>
    rw [ht] at ht2
    simp only [Option.some.injEq] at ht2
    subst ht2
    simp [hfr] at hfr2
  | taskDoneNeg _ t2 pan2 hcr ht2 hfr2 hn =>
    rw [ht] at ht2
    simp only [Option.some.injEq] at ht2
    subst ht2
    simp [hfr] at hfr2

/-! ## The claims -/

/-- C1. When `Do` has left its frame, by returning or by panicking, every goroutine
started by `Go` on its scope (from the body or from another goroutine) has ended,
whatever the body and the goroutines did. -/
theorem do_completion (f : Work α) (sched : List Tid) (out : GoAny)
    (h : (run (Do f) sched).outcome = some out) :
    ∀ t ∈ (run (Do f) sched).tasks, t.frame = .exited :=
  (exit_state f sched out h).2.1

/-- In `Test_Parallel_Panic`, `Do` panics with "oops" and both goroutines have ended. -/
theorem do_completion_witness :
    (run (Do panicBody) panicSched).outcome = some (some oops) ∧
      ∀ t ∈ (run (Do panicBody) panicSched).tasks, t.frame = .exited :=
  ⟨by decide, do_completion panicBody panicSched (some oops) (by decide)⟩

/-- C2, at a failing input. The body starts two goroutines, one panics with the
string "hi", the other with the int 42, under the filter `Do` installs, which
answers `true` to both.  In the schedule `mixedSched` the second goroutine ends
while panicking with the panic of `CompareAndSwap` and the runtime ends the process
while `Do` is still in `Wait`: `Do` has not panicked and never will.  Under every
schedule the process has ended or something can still move, so every complete run
ends with the end of the process.  In the schedule `mixedLateSched` the `Done` of
the second goroutine releases `Wait` first: `Do` panics with "hi", and the process
ends all the same. -/
theorem do_mixed_types_process_dies :
    (∃ v, v ∈ mixedBody.fails ∧ (Do mixedBody).p.OnPanic v = true) ∧
    (run (Do mixedBody) mixedSched).outcome = none ∧
    (run (Do mixedBody) mixedSched).crashed = some casPanic ∧
    (∀ sched, (run (Do mixedBody) sched).crashed.isSome = true ∨
      ∃ t, (step (run (Do mixedBody) sched) t).isSome = true) ∧
    (run (Do mixedBody) mixedLateSched).outcome = some (some hi) ∧
    (run (Do mixedBody) mixedLateSched).crashed = some casPanic :=
  ⟨⟨hi, by decide, rfl⟩, by decide, by decide,
    always_dies (fun _ => true) mixedBody (.inl ⟨rfl, rfl⟩) hi int42 (by decide) (by decide)
      rfl rfl (by decide),
    by decide, by decide⟩

/-- C3. On a scope whose `finished` flag is set, `Go` panics with the string
"parallel: cannot call Go after Do has returned", and the frame that called it
leaves the state as it was: the counter is not touched and no goroutine is
started. -/
theorem go_after_finished (s : State α) (f rest : Work α) (h : s.p.finished = true) :
    s.Go f = .error (.str "parallel: cannot call Go after Do has returned") ∧
      (Work.go f rest).exec s
        = (s, .left (some (.str "parallel: cannot call Go after Do has returned"))) := by
  simp [Work.exec, State.Go, h]

/-- In `Test_Parallel_Misuse`, `Do` has returned and `Go` on its scope panics. -/
theorem go_after_finished_witness :
    (run (Do misuseBody) misuseSched).outcome = some none ∧
      (run (Do misuseBody) misuseSched).Go (.fail oops)
        = .error (.str "parallel: cannot call Go after Do has returned") :=
  ⟨by decide, (go_after_finished (run (Do misuseBody) misuseSched) (.fail oops) .ret
    (by decide)).1⟩

/-- C4. When `Do` panics, the value it panics with is the content of the slot, and
that is the value of the earliest call of `p.recover()` to which `p.OnPanic` answered
`true`; it is one of the values the body and the goroutines panicked with. -/
theorem do_reraises_first (f : Work α) (sched : List Tid) (v : GoVal)
    (h : (run (Do f) sched).outcome = some (some v)) :
    (run (Do f) sched).p.panicked.v = some v ∧
      firstKept (run (Do f) sched).captured = some v ∧ v ∈ f.fails := by
  have hs := run_slotInv f sched
  have h1 : (run (Do f) sched).p.panicked.v = some v := (hs.out _ (outcome_eq h)).symm
  have h2 : firstKept (run (Do f) sched).captured = some v := by rw [← hs.first]; exact h1
  obtain ⟨c, hc, -, hv⟩ := firstKept_some h2
  exact ⟨h1, h2, hv ▸ captured_mem_fails f sched c hc⟩

/-- A goroutine panics with "hi", then the body with 42: `Do` panics with "hi". -/
theorem do_reraises_first_witness :
    (run (Do lateBody) lateSched).outcome = some (some hi) ∧
      (run (Do lateBody) lateSched).captured
        = [⟨.task 0, hi, true⟩, ⟨.driver, int42, true⟩] ∧
      firstKept (run (Do lateBody) lateSched).captured = some hi :=
  ⟨by decide, by decide, (do_reraises_first lateBody lateSched hi (by decide)).2.1⟩

/-- C5. `Each(items, f)` with an `f` that does not panic, under any schedule: the
process does not crash; the goroutines started so far are, in slice order, the
calls of `f` on the first elements of `items`, each on its own element; when `Each`
has left its frame it has returned normally, there is one goroutine per element,
in slice order, each has ended, and the calls of `f` made are the elements of
`items`, each once; as long as `Each` has not left its frame some goroutine can
move; and every action brings the end nearer. -/
theorem each_calls_all {T : Type} (items : List T) (f : T → GoAny)
    (hf : ∀ v ∈ items, f v = none) (sched : List Tid) :
    (run (Each items f) sched).crashed = none ∧
    (run (Each items f) sched).tasks.map (fun t => t.origin) <+: items.map (Each.call f) ∧
    (∀ out, (run (Each items f) sched).outcome = some out →
      out = none ∧
      (run (Each items f) sched).tasks.map (fun t => t.origin) = items.map (Each.call f) ∧
      (∀ t ∈ (run (Each items f) sched).tasks, t.frame = .exited) ∧
      (run (Each items f) sched).effects.Perm items) ∧
    ((run (Each items f) sched).outcome = none →
      ∃ t, (step (run (Each items f) sched) t).isSome = true) ∧
    (∀ t s1, step (run (Each items f) sched) t = some s1 →
      s1.fuel < (run (Each items f) sched).fuel) := by
  have hq := run_quietInv (Each.loop f items) (Each.loop_quiet f items hf) sched
  have hflat := run_flatInv (Each.loop f items)
    (by
      intro c hc
      rw [Each.loop_spawns] at hc
      obtain ⟨v, -, rfl⟩ := List.mem_map.mp hc
      exact Each.call_spawns f v) sched
  have hord := hflat.order
  rw [Each.loop_spawns] at hord
  refine ⟨hq.crashed, ⟨_, hord⟩, fun out hout => ?_,
    fun hout => progress (run_inv _ sched) hq.crashed hout, fun t s1 h => step_fuel h⟩
  obtain ⟨hd, hex, -, -⟩ := exit_state (Each.loop f items) sched out hout
  have hdrv := hq.driver
  refine ⟨?_, ?_, hex, ?_⟩
  · change (run (Do (Each.loop f items)) sched).driver.quiet at hdrv
    rw [hd] at hdrv
    exact hdrv
  · change (run (Do (Each.loop f items)) sched).tasks.map (fun t => t.origin)
      ++ (run (Do (Each.loop f items)) sched).driver.spawns = _ at hord
    rw [hd] at hord
    simpa [Driver.spawns] using hord
  · have := do_effects (Each.loop f items) sched out hout
    rw [Each.loop_pend] at this
    exact this

/-- In `ExampleEach`, `Each` returns, and `f` has been called on 3, 1 and 2. -/
theorem each_calls_all_witness :
    (run (Each [1, 2, 3] (fun _ => none)) exampleSched).outcome = some none ∧
      (run (Each [1, 2, 3] (fun _ => none)) exampleSched).effects = [3, 1, 2] ∧
      (run (Each [1, 2, 3] (fun _ => none)) exampleSched).effects.Perm [1, 2, 3] :=
  ⟨by decide, by decide,
    ((each_calls_all [1, 2, 3] (fun _ => none) (fun _ _ => rfl) exampleSched).2.2.1 none
      (by decide)).2.2.2⟩

/-- C6. In every state of a call of `Do`: if `finished` is set then the body has
left (`wait` is past the store), the counter is 0 and every goroutine has ended;
an action never clears the flag, and the only action that sets it is the store of
`wait`, by the goroutine that called `Do`; and when `Do` has left its frame, by
returning or by panicking, the flag is set. -/
theorem wait_seal_reraise (f : Work α) (sched : List Tid) :
    ((run (Do f) sched).p.finished = true →
      (run (Do f) sched).driver.pastSeal = true ∧ (run (Do f) sched).p.waitgroup.n = 0 ∧
        ∀ t ∈ (run (Do f) sched).tasks, t.frame = .exited) ∧
    (∀ t s1, step (run (Do f) sched) t = some s1 →
      ((run (Do f) sched).p.finished = true → s1.p.finished = true) ∧
      ((run (Do f) sched).p.finished = false → s1.p.finished = true →
        t = .driver ∧ ∃ pan, (run (Do f) sched).driver = .store pan)) ∧
    (∀ out, (run (Do f) sched).outcome = some out → (run (Do f) sched).p.finished = true) := by
  have hinv := run_inv f sched
  refine ⟨fun hfin => ?_, fun t s1 h => step_finished h hinv,
    fun out h => (exit_state f sched out h).2.2.1⟩
  have h1 : (run (Do f) sched).driver.pastSeal = true := by rw [← hinv.flag]; exact hfin
  have h2 := hinv.drained (Driver.pastWait_of_pastSeal _ h1)
  refine ⟨h1, ?_, exited_of_live_zero _ h2⟩
  have := hinv.count
  omega

/-- In `Test_Parallel_Panic`, `Do` has panicked, the flag is set and the counter is 0. -/
theorem wait_seal_reraise_witness :
    (run (Do panicBody) panicSched).outcome = some (some oops) ∧
      (run (Do panicBody) panicSched).p.finished = true ∧
      (run (Do panicBody) panicSched).p.waitgroup.n = 0 :=
  ⟨by decide,
    (wait_seal_reraise panicBody panicSched).2.2 (some oops) (by decide),
    ((wait_seal_reraise panicBody panicSched).1 (by decide)).2.1⟩

/-- C7. Over any sequence of captures on one scope: a slot that holds a value keeps
it, whatever the later failures are; an empty slot ends with the first failure the
filter answered `true` to, if any; a failure the filter answers `false` to leaves
the slot as it is; and no action of any goroutine changes a slot that holds a
value. -/
theorem slot_write_once (p : P) (rs : List GoVal) :
    (∀ x, p.panicked.v = some x → (recoverAll p rs).panicked.v = some x) ∧
    (p.panicked.v = none → (recoverAll p rs).panicked.v = rs.find? p.OnPanic) ∧
    (∀ r, p.OnPanic r = false → (p.recover (some r)).1.panicked = p.panicked) ∧
    (∀ (s s1 : State α) (t : Tid) (x : GoVal), step s t = some s1 →
      s.p.panicked.v = some x → s1.p.panicked.v = some x) := by
  refine ⟨fun x hx => ?_, fun hx => ?_, fun r hr => ?_, fun s s1 t x h hx => step_slot_mono h hx⟩
  · simp [(recoverAll_slot rs p).1, hx]
  · simp [(recoverAll_slot rs p).1, hx]
  · simp [P.recover, hr]

/-- A slot that holds "hi" holds it after the captures of 42 and of "oops". -/
theorem slot_write_once_witness :
    (recoverAll heldScope [int42, oops]).panicked.v = some hi :=
  (@slot_write_once Nat heldScope [int42, oops]).1 hi rfl

/-- C8, at a failing input. The slot holds the string "hi" and a goroutine panics
with the int 42, which the filter keeps: `p.recover()` leaves the slot as it is and
itself panics with the panic of `CompareAndSwap`; in the run `mixedSched` that panic
is in flight in the frame of the goroutine after its `p.recover()`, and leaves the
goroutine after `Done`, ending the process. -/
theorem recover_mixed_types_escapes :
    (heldScope.recover (some int42)).2 = some casPanic ∧
    (heldScope.recover (some int42)).1.panicked.v = some hi ∧
    ((run (Do mixedBody) (mixedSched.take 5)).tasks.map (fun t => t.frame.pan))
      = [none, some casPanic] ∧
    (run (Do mixedBody) mixedSched).crashed = some casPanic ∧
    (run (Do mixedBody) mixedSched).p.waitgroup.n = 1 :=
  ⟨by decide, by decide, by decide, by decide, by decide⟩

/-- C9. In every state of a call of `Do` the counter is non-negative and is the
number of goroutines started by `Go` that have not ended; a call of `Go` on a scope
that is not finished adds exactly one to it and starts the goroutine; a goroutine
whose function has left (normally or panicking, whatever `p.recover()` did with the
panic) takes exactly one off it as it ends; and a goroutine still in its function
does not end without passing there. -/
theorem counter_consistent (f : Work α) (sched : List Tid) :
    0 ≤ (run (Do f) sched).p.waitgroup.n ∧
    (run (Do f) sched).p.waitgroup.n = (live (run (Do f) sched).tasks : Int) ∧
    (∀ child, (run (Do f) sched).p.finished = false →
      ∃ s1, (run (Do f) sched).Go child = .ok s1 ∧
        s1.p.waitgroup.n = (run (Do f) sched).p.waitgroup.n + 1 ∧
        s1.tasks = (run (Do f) sched).tasks ++ [⟨child, .run child⟩]) ∧
    (∀ i t pan s1, (run (Do f) sched).tasks[i]? = some t → t.frame = .done pan →
      step (run (Do f) sched) (.task i) = some s1 →
      s1.p.waitgroup.n = (run (Do f) sched).p.waitgroup.n - 1 ∧
        s1.tasks[i]? = some ⟨t.origin, .exited⟩) ∧
    (∀ i t w s1, (run (Do f) sched).tasks[i]? = some t → t.frame = .run w →
      step (run (Do f) sched) (.task i) = some s1 →
      ∃ t1, s1.tasks[i]? = some t1 ∧ t1.origin = t.origin ∧ t1.frame.isExited = false) := by
  have hinv := run_inv f sched
  have hn : 0 ≤ (run (Do f) sched).p.waitgroup.n := by
    have := hinv.count
    omega
  refine ⟨hn, hinv.count, fun child hf => ⟨_, Go_ok _ child hf hn, rfl, rfl⟩,
    fun i t pan s1 ht hfr h => step_done hinv ht hfr h,
    fun i t w s1 ht hfr h => step_run ht hfr h⟩

/-- In `Test_Parallel_Panic`, the second goroutine, after its panic, takes one off the
counter as it ends. -/
theorem counter_consistent_witness :
    ∃ s1, step (run (Do panicBody) [.driver, .driver, .task 1]) (.task 1) = some s1 ∧
      s1.p.waitgroup.n = (run (Do panicBody) [.driver, .driver, .task 1]).p.waitgroup.n - 1 :=
  ⟨((step (run (Do panicBody) [.driver, .driver, .task 1]) (.task 1)).get (by decide)),
    by simp,
    ((counter_consistent panicBody [.driver, .driver, .task 1]).2.2.2.1 1
      ⟨.fail hi, .done none⟩ none _ rfl rfl (by simp)).1⟩

/-- C10, at a failing input. `Each([1, 2], f)` where `f` panics with a string on 1
and with an int on 2.  In the schedule `eachSched`, `f` has been called on both
elements, the second goroutine has ended while panicking with the panic of
`CompareAndSwap` and the runtime has ended the process while `Each` is still in
`Wait`: `Each` has not panicked and never will.  Under every schedule the process
has ended or something can still move, so every complete run ends with the end of
the process.  In the schedule `eachLateSched` the `Done` of the second goroutine
releases `Wait` first: `Each` panics with "hi", and the process ends all the same. -/
theorem each_mixed_types_process_dies :
    (∃ v, v ∈ [1, 2] ∧ (mixedCallback v).isSome = true) ∧
    (run (Each [1, 2] mixedCallback) eachSched).outcome = none ∧
    (run (Each [1, 2] mixedCallback) eachSched).effects = [1, 2] ∧
    (run (Each [1, 2] mixedCallback) eachSched).crashed = some casPanic ∧
    (∀ sched, (run (Each [1, 2] mixedCallback) sched).crashed.isSome = true ∨
      ∃ t, (step (run (Each [1, 2] mixedCallback) sched) t).isSome = true) ∧
    (run (Each [1, 2] mixedCallback) eachLateSched).outcome = some (some hi) ∧
    (run (Each [1, 2] mixedCallback) eachLateSched).crashed = some casPanic :=
  ⟨⟨1, by decide, by decide⟩, by decide, by decide, by decide,
    always_dies (fun _ => true) (Each.loop mixedCallback [1, 2])
      (.inl ⟨Each.loop_noSet _ _, rfl⟩) hi int42
      (by rw [Each.loop_taskFails]; decide) (by rw [Each.loop_taskFails]; decide)
      rfl rfl (by decide),
    by decide, by decide⟩

end Parallel
